import Mathlib

/-!
# Verification of the daily-routine-calendar core

A shallow embedding of the repository's core logic:

* `src/utils/TimeUtils.js` — the time codec (`parseTime`, `formatTime`,
  `shiftTime`, `getTimeDelta`, `isValidTime`, `normalizeTime`);
* `src/constants/defaultMarks.js` — the morning/evening mark templates;
* `src/services/MarkService.js` and `src/services/ScheduleService.js` —
  default-mark creation and re-shifting over a pure storage state;
* `src/components/CalendarBody.js` — the timeline layout engine
  (`sortedMarks`, `timeRange`, `currentTimeYPosition`);
* the Alpine `appData` layer — `handleDeleteSchedule` and `loadData`.

Strings are Lean `String`s; JavaScript `Number` conversion is modelled on
the integer fragment (see `jsNumberChars`); JavaScript's truncating `%` is
`jsRem`; pixel coordinates are rationals.  Theorems about each claim follow
the definitions.
-/

namespace DailyRoutine

/-! ## Character and digit helpers -/

/-- The decimal digit character for `n < 10` (code point `48 + n`). -/
def digitChar (n : Nat) : Char := Char.ofNat (48 + n)

/-- Numeric value of a decimal digit character. -/
def dval (c : Char) : Nat := c.toNat - 48

/-- Value of a run of decimal digit characters, most significant first.
Models JavaScript `parseInt(s, 10)` / `Number(s)` on all-digit strings. -/
def digitsToNat (l : List Char) : Nat := l.foldl (fun a c => a * 10 + dval c) 0

/-- JavaScript whitespace test, restricted to the ASCII whitespace that
`String.prototype.trim` removes on the inputs modelled here. -/
def isWs (c : Char) : Bool := c = ' ' ∨ c = '\t' ∨ c = '\n' ∨ c = '\r'

/-- Model of JavaScript `String.prototype.trim` on the character list. -/
def trimChars (l : List Char) : List Char :=
  ((l.dropWhile isWs).reverse.dropWhile isWs).reverse

/-- Model of JavaScript `s.split(':')` on the character list: splits into
the (possibly empty) runs between `':'` separators. -/
def splitCols : List Char → List (List Char)
  | [] => [[]]
  | c :: rest =>
    if c = ':' then [] :: splitCols rest
    else
      match splitCols rest with
      | [] => [[c]]
      | g :: gs => (c :: g) :: gs

/-- Model of JavaScript `Number(s)` returning `none` for `NaN`.
Scope of the model: the empty (or all-whitespace) string is `0`, a trimmed
run of decimal digits is its value, and everything else is `NaN`.  Signed,
fractional, exponential and hexadecimal numerals do not occur in this
code base and are treated as `NaN`. -/
def jsNumberChars (l : List Char) : Option Int :=
  let t := trimChars l
  if t.isEmpty then some 0
  else if t.all Char.isDigit then some (Int.ofNat (digitsToNat t))
  else none

/-! ## Time codec (`src/utils/TimeUtils.js`) -/

/-- The `[hours, minutes] = time.split(':').map(Number)` destructuring of
`parseTime`: `none` when either of the first two components is `NaN`
(including a missing minutes component). -/
def parseComponents (time : String) : Option (Int × Int) :=
  match (splitCols time.data).map jsNumberChars with
  | some h :: some m :: _ => some (h, m)
  | _ => none

/-- `parseTime(time)`: converts an `'HH:MM'` string to minutes from
midnight.  Mirrors the source: a falsy (empty) input gives `0`; the string
is split on `':'`, the first two components go through `Number`, and if
either is `NaN` (including a missing second component) the result is `0`;
otherwise `hours * 60 + minutes`.  (The source also returns `0` for
non-string input, which a `String`-typed model cannot receive.) -/
def parseTime (time : String) : Int :=
  if time = "" then 0
  else
    match parseComponents time with
    | some (h, m) => h * 60 + m
    | none => 0

/-- JavaScript's truncating remainder `a % b` for `b > 0`: the result has
the sign of the dividend. -/
def jsRem (a b : Int) : Int := if 0 ≤ a then a % b else -((-a) % b)

/-- `formatTime(minutes)`: normalizes any integer into `[0, 1440)` (via
`minutes % 1440`, adding `1440` if negative) and formats it as a
zero-padded `'HH:MM'` string.  Since the normalized hours and minutes are
below 100, `String(n).padStart(2, '0')` always yields exactly the two
digit characters built here. -/
def formatTime (minutes : Int) : String :=
  let normalized := jsRem minutes 1440
  let n := (if normalized < 0 then normalized + 1440 else normalized).toNat
  let hours := n / 60
  let mins := n % 60
  String.mk [digitChar (hours / 10), digitChar (hours % 10), ':',
             digitChar (mins / 10), digitChar (mins % 10)]

/-- `shiftTime(time, deltaMinutes)`. -/
def shiftTime (time : String) (deltaMinutes : Int) : String :=
  formatTime (parseTime time + deltaMinutes)

/-- `getTimeDelta(oldTime, newTime)`: signed difference in minutes,
wrapped once across midnight when it exceeds ±12 hours. -/
def getTimeDelta (oldTime newTime : String) : Int :=
  let delta := parseTime newTime - parseTime oldTime
  if delta > 720 then delta - 1440
  else if delta < -720 then delta + 1440
  else delta

/-- `isValidTime(time)`: a bare 1–2 digit hour in `[0, 23]`, or
`H:MM`/`HH:MM` with hour in `[0, 23]` and a two-digit minute in `[0, 59]`.
The regular expressions `^\d{1,2}$` and `^(\d{1,2}):(\d{2})$` are modelled
on the trimmed character list. -/
def isValidTime (time : String) : Bool :=
  if time = "" then false
  else
    let trimmed := trimChars time.data
    if 1 ≤ trimmed.length ∧ trimmed.length ≤ 2 ∧ trimmed.all Char.isDigit then
      digitsToNat trimmed ≤ 23
    else
      match splitCols trimmed with
      | [h, m] =>
        if 1 ≤ h.length ∧ h.length ≤ 2 ∧ h.all Char.isDigit ∧
           m.length = 2 ∧ m.all Char.isDigit then
          digitsToNat h ≤ 23 ∧ digitsToNat m ≤ 59
        else false
      | _ => false

/-- Two zero-padded digit characters for `n < 100`; models
`String(n).padStart(2, '0')` on that range. -/
def pad2 (n : Nat) : List Char := [digitChar (n / 10), digitChar (n % 10)]

/-- `normalizeTime(time)`: normalizes valid input to `'HH:MM'`, returns
`null` (here `none`) otherwise.  Acceptance mirrors `isValidTime`. -/
def normalizeTime (time : String) : Option String :=
  if time = "" then none
  else
    let trimmed := trimChars time.data
    if 1 ≤ trimmed.length ∧ trimmed.length ≤ 2 ∧ trimmed.all Char.isDigit then
      let hours := digitsToNat trimmed
      if hours > 23 then none
      else some (String.mk (pad2 hours ++ [':', '0', '0']))
    else
      match splitCols trimmed with
      | [h, m] =>
        if 1 ≤ h.length ∧ h.length ≤ 2 ∧ h.all Char.isDigit ∧
           m.length = 2 ∧ m.all Char.isDigit then
          let hours := digitsToNat h
          let minutes := digitsToNat m
          if hours > 23 ∨ minutes > 59 then none
          else some (String.mk (pad2 hours ++ ':' :: pad2 minutes))
        else none
      | _ => none

/-! ## Validity of `"HH:MM"` strings (specification-side notion)

`isHHMM` captures the spec's "valid `\"HH:MM\"` string": zero-padded
two-digit hour in `[0, 23]` and two-digit minute in `[0, 59]`.  It is
stated by direct character pattern so that valid strings can be
destructured in proofs. -/

/-- `s` is a valid zero-padded `"HH:MM"` string. -/
def isHHMM (s : String) : Bool :=
  match s.data with
  | [h1, h2, c, m1, m2] =>
    c = ':' && h1.isDigit && h2.isDigit && m1.isDigit && m2.isDigit &&
    decide (10 * dval h1 + dval h2 ≤ 23) && decide (10 * dval m1 + dval m2 ≤ 59)
  | _ => false

/-! ## Helper lemmas about characters and parsing -/

theorem isDigit_toNat_bounds (c : Char) (h : c.isDigit = true) :
    48 ≤ c.toNat ∧ c.toNat ≤ 57 := by
  simp [Char.isDigit] at h
  exact ⟨h.1, h.2⟩

theorem digitChar_dval (c : Char) (h : c.isDigit = true) : digitChar (dval c) = c := by
  obtain ⟨h1, _⟩ := isDigit_toNat_bounds c h
  have he : 48 + dval c = c.toNat := by unfold dval; omega
  unfold digitChar
  rw [he, Char.ofNat_toNat]

theorem digitChar_isDigit (n : Nat) (h : n < 10) : (digitChar n).isDigit = true := by
  interval_cases n <;> decide

theorem digitChar_ne_colon (n : Nat) (h : n < 10) : digitChar n ≠ ':' := by
  interval_cases n <;> decide

theorem digitChar_not_ws (n : Nat) (h : n < 10) : isWs (digitChar n) = false := by
  interval_cases n <;> decide

theorem dval_digitChar (n : Nat) (h : n < 10) : dval (digitChar n) = n := by
  interval_cases n <;> decide

theorem isDigit_ne_colon (c : Char) (h : c.isDigit = true) : c ≠ ':' := by
  obtain ⟨_, h2⟩ := isDigit_toNat_bounds c h
  intro hc
  subst hc
  have hv : (':' : Char).toNat = 58 := by decide
  omega

theorem isDigit_not_ws (c : Char) (h : c.isDigit = true) : isWs c = false := by
  obtain ⟨h1, h2⟩ := isDigit_toNat_bounds c h
  simp only [isWs, decide_eq_false_iff_not]
  intro hw
  have hsp : (' ' : Char).toNat = 32 := by decide
  have hta : ('\t' : Char).toNat = 9 := by decide
  have hnl : ('\n' : Char).toNat = 10 := by decide
  have hcr : ('\r' : Char).toNat = 13 := by decide
  rcases hw with h | h | h | h <;> (subst h; omega)

theorem splitCols_cons_colon (rest : List Char) :
    splitCols (':' :: rest) = [] :: splitCols rest := by
  simp [splitCols]

theorem splitCols_ne_nil (l : List Char) : splitCols l ≠ [] := by
  cases l with
  | nil => simp [splitCols]
  | cons c rest =>
    unfold splitCols
    split
    · simp
    · match h : splitCols rest with
      | [] => simp
      | g :: gs => simp

theorem splitCols_cons_ne (c : Char) (rest : List Char) (h : c ≠ ':') :
    splitCols (c :: rest) =
      (c :: (splitCols rest).headD []) :: (splitCols rest).tail := by
  conv_lhs => unfold splitCols
  rw [if_neg h]
  cases hg : splitCols rest with
  | nil => exact absurd hg (splitCols_ne_nil rest)
  | cons g gs => simp

/-- Trimming a list of digit characters is the identity. -/
theorem trimChars_digits (l : List Char) (h : l.all Char.isDigit = true) :
    trimChars l = l := by
  unfold trimChars
  have hd : ∀ m : List Char, m.all Char.isDigit = true → m.dropWhile isWs = m := by
    intro m hm
    cases m with
    | nil => rfl
    | cons c cs =>
      rw [List.dropWhile_cons_of_neg]
      simp [List.all_cons] at hm
      simp [isDigit_not_ws c hm.1]
  rw [hd l h, hd l.reverse (by simpa using h), List.reverse_reverse]

theorem jsNumberChars_digits (l : List Char) (h : l.all Char.isDigit = true)
    (hne : l ≠ []) : jsNumberChars l = some (Int.ofNat (digitsToNat l)) := by
  unfold jsNumberChars
  rw [trimChars_digits l h]
  rw [if_neg (by simp [List.isEmpty_iff, hne]), if_pos h]

theorem digitsToNat_pair (a b : Char) :
    digitsToNat [a, b] = 10 * dval a + dval b := by
  simp [digitsToNat, List.foldl]
  ring

theorem digitsToNat_single (a : Char) : digitsToNat [a] = dval a := by
  simp [digitsToNat, List.foldl]

/-- `jsRem m 1440` lies strictly between `-1440` and `1440`, and is
congruent to `m`. -/
theorem jsRem_1440_bounds (m : Int) :
    -1440 < jsRem m 1440 ∧ jsRem m 1440 < 1440 := by
  unfold jsRem
  split
  · have h1 := Int.emod_nonneg m (by norm_num : (1440 : Int) ≠ 0)
    have h2 := Int.emod_lt_of_pos m (by norm_num : (0 : Int) < 1440)
    omega
  · have h1 := Int.emod_nonneg (-m) (by norm_num : (1440 : Int) ≠ 0)
    have h2 := Int.emod_lt_of_pos (-m) (by norm_num : (0 : Int) < 1440)
    omega

theorem jsRem_1440_modeq (m : Int) : jsRem m 1440 ≡ m [ZMOD 1440] := by
  unfold jsRem Int.ModEq
  split <;> omega

/-- Parsing the five-character string built by `formatTime` recovers the
encoded hour/minute value. -/
theorem parseTime_mk_digits (H M : Nat) (hH : H < 24) (hM : M < 60) :
    parseTime (String.mk [digitChar (H / 10), digitChar (H % 10), ':',
                          digitChar (M / 10), digitChar (M % 10)]) =
      ((60 * H + M : Nat) : Int) := by
  have h1 : H / 10 < 10 := by omega
  have h2 : H % 10 < 10 := Nat.mod_lt _ (by norm_num)
  have h3 : M / 10 < 10 := by omega
  have h4 : M % 10 < 10 := Nat.mod_lt _ (by norm_num)
  have hs4 : splitCols [digitChar (M / 10), digitChar (M % 10)] =
      [[digitChar (M / 10), digitChar (M % 10)]] := by
    rw [splitCols_cons_ne _ _ (digitChar_ne_colon _ h3),
        splitCols_cons_ne _ _ (digitChar_ne_colon _ h4)]
    simp [splitCols]
  have hsAll : splitCols [digitChar (H / 10), digitChar (H % 10), ':',
      digitChar (M / 10), digitChar (M % 10)] =
      [[digitChar (H / 10), digitChar (H % 10)],
       [digitChar (M / 10), digitChar (M % 10)]] := by
    rw [splitCols_cons_ne _ _ (digitChar_ne_colon _ h1)]
    rw [splitCols_cons_ne _ _ (digitChar_ne_colon _ h2)]
    rw [splitCols_cons_colon, hs4]
    simp
  have hnum : ∀ a b : Nat, a < 10 → b < 10 →
      jsNumberChars [digitChar a, digitChar b] = some (Int.ofNat (10 * a + b)) := by
    intro a b ha hb
    rw [jsNumberChars_digits _ (by
          simp [List.all_cons, digitChar_isDigit a ha, digitChar_isDigit b hb])
        (by simp)]
    rw [digitsToNat_pair, dval_digitChar a ha, dval_digitChar b hb]
  have hne : String.mk [digitChar (H / 10), digitChar (H % 10), ':',
      digitChar (M / 10), digitChar (M % 10)] ≠ "" := by
    intro hC
    have := congrArg String.data hC
    simp at this
  unfold parseTime parseComponents
  rw [if_neg hne]
  have hdata : (String.mk [digitChar (H / 10), digitChar (H % 10), ':',
      digitChar (M / 10), digitChar (M % 10)]).data =
      [digitChar (H / 10), digitChar (H % 10), ':',
       digitChar (M / 10), digitChar (M % 10)] := rfl
  rw [hdata, hsAll]
  simp only [List.map_cons, List.map_nil, hnum _ _ h1 h2, hnum _ _ h3 h4]
  have hH10 : 10 * (H / 10) + H % 10 = H := by omega
  have hM10 : 10 * (M / 10) + M % 10 = M := by omega
  rw [hH10, hM10]
  simp only [Int.ofNat_eq_coe]
  push_cast
  ring

/-- `parseTime` after `formatTime` yields the Euclidean remainder
modulo 1440. -/
theorem parseTime_formatTime (m : Int) :
    parseTime (formatTime m) = m % 1440 := by
  obtain ⟨hb1, hb2⟩ := jsRem_1440_bounds m
  have hcong : jsRem m 1440 % 1440 = m % 1440 := jsRem_1440_modeq m
  unfold formatTime
  dsimp only
  generalize hrw : jsRem m 1440 = r at *
  by_cases hneg : r < 0
  · rw [if_pos hneg]
    have h0 : (0 : Int) ≤ r + 1440 := by omega
    have h1 : (r + 1440).toNat < 1440 := by omega
    rw [parseTime_mk_digits ((r + 1440).toNat / 60) ((r + 1440).toNat % 60)
        (by omega) (Nat.mod_lt _ (by norm_num))]
    push_cast
    omega
  · rw [if_neg hneg]
    have h1 : r.toNat < 1440 := by omega
    rw [parseTime_mk_digits (r.toNat / 60) (r.toNat % 60)
        (by omega) (Nat.mod_lt _ (by norm_num))]
    push_cast
    omega

/-- Destructuring a valid `"HH:MM"` string into its digit characters. -/
theorem isHHMM_destruct (s : String) (h : isHHMM s = true) :
    ∃ h1 h2 m1 m2 : Char, s.data = [h1, h2, ':', m1, m2] ∧
      h1.isDigit = true ∧ h2.isDigit = true ∧ m1.isDigit = true ∧ m2.isDigit = true ∧
      10 * dval h1 + dval h2 ≤ 23 ∧ 10 * dval m1 + dval m2 ≤ 59 := by
  unfold isHHMM at h
  match hd : s.data with
  | [h1, h2, c, m1, m2] =>
    rw [hd] at h
    simp only [Bool.and_eq_true, decide_eq_true_eq] at h
    obtain ⟨⟨⟨⟨⟨⟨hc, d1⟩, d2⟩, d3⟩, d4⟩, b1⟩, b2⟩ := h
    refine ⟨h1, h2, m1, m2, ?_, d1, d2, d3, d4, b1, b2⟩
    rw [hc]
  | [] => rw [hd] at h; simp at h
  | [a] => rw [hd] at h; simp at h
  | [a, b] => rw [hd] at h; simp at h
  | [a, b, c] => rw [hd] at h; simp at h
  | [a, b, c, d] => rw [hd] at h; simp at h
  | a :: b :: c :: d :: e :: f :: rest => rw [hd] at h; simp at h

/-- `dval` of a digit character is below 10. -/
theorem dval_lt_ten (c : Char) (h : c.isDigit = true) : dval c < 10 := by
  obtain ⟨h1, h2⟩ := isDigit_toNat_bounds c h
  unfold dval
  omega

/-- Parsing a string whose characters form `digit digit ':' digit digit`. -/
theorem parseTime_digit_pattern (s : String) (a b c d : Char)
    (hd : s.data = [a, b, ':', c, d])
    (ha : a.isDigit = true) (hb : b.isDigit = true)
    (hc : c.isDigit = true) (hdd : d.isDigit = true) :
    parseTime s = ((60 * (10 * dval a + dval b) + (10 * dval c + dval d) : Nat) : Int) := by
  have hne : s ≠ "" := by
    intro h0
    rw [h0] at hd
    simp at hd
  have hsplit : splitCols s.data = [[a, b], [c, d]] := by
    rw [hd]
    rw [splitCols_cons_ne _ _ (isDigit_ne_colon _ ha)]
    rw [splitCols_cons_ne _ _ (isDigit_ne_colon _ hb)]
    rw [splitCols_cons_colon]
    rw [splitCols_cons_ne _ _ (isDigit_ne_colon _ hc)]
    rw [splitCols_cons_ne _ _ (isDigit_ne_colon _ hdd)]
    simp [splitCols]
  unfold parseTime parseComponents
  rw [if_neg hne, hsplit]
  simp only [List.map_cons, List.map_nil]
  rw [jsNumberChars_digits [a, b] (by simp [List.all_cons, ha, hb]) (by simp)]
  rw [jsNumberChars_digits [c, d] (by simp [List.all_cons, hc, hdd]) (by simp)]
  rw [digitsToNat_pair, digitsToNat_pair]
  simp only [Int.ofNat_eq_coe]
  push_cast
  ring

/-- `parseTime` of a valid `"HH:MM"` string is its minute of day,
in `[0, 1440)`. -/
theorem parseTime_isHHMM_bounds (s : String) (h : isHHMM s = true) :
    0 ≤ parseTime s ∧ parseTime s < 1440 := by
  obtain ⟨h1, h2, m1, m2, hd, d1, d2, d3, d4, b1, b2⟩ := isHHMM_destruct s h
  rw [parseTime_digit_pattern s h1 h2 m1 m2 hd d1 d2 d3 d4]
  have := dval_lt_ten h2 d2
  have := dval_lt_ten m2 d4
  constructor
  · positivity
  · push_cast
    omega

/-- Formatting the parse of a valid `"HH:MM"` string gives it back
(claim C6, first half, as a reusable lemma). -/
theorem formatTime_parseTime_of_isHHMM (s : String) (h : isHHMM s = true) :
    formatTime (parseTime s) = s := by
  obtain ⟨h1, h2, m1, m2, hd, d1, d2, d3, d4, b1, b2⟩ := isHHMM_destruct s h
  have e2 := dval_lt_ten h2 d2
  have e4 := dval_lt_ten m2 d4
  rw [parseTime_digit_pattern s h1 h2 m1 m2 hd d1 d2 d3 d4]
  set H : Nat := 10 * dval h1 + dval h2 with hH
  set M : Nat := 10 * dval m1 + dval m2 with hM
  have hv0 : (0 : Int) ≤ ((60 * H + M : Nat) : Int) := by positivity
  have hv1 : ((60 * H + M : Nat) : Int) < 1440 := by push_cast; omega
  unfold formatTime
  dsimp only
  have hjs : jsRem ((60 * H + M : Nat) : Int) 1440 = ((60 * H + M : Nat) : Int) := by
    unfold jsRem
    rw [if_pos hv0]
    exact Int.emod_eq_of_lt hv0 hv1
  rw [hjs, if_neg (by omega)]
  have htn : (((60 * H + M : Nat) : Int)).toNat = 60 * H + M := by
    exact_mod_cast Int.toNat_of_nonneg hv0
  rw [htn]
  have hhours : (60 * H + M) / 60 = H := by omega
  have hmins : (60 * H + M) % 60 = M := by omega
  rw [hhours, hmins]
  have hH1 : H / 10 = dval h1 := by omega
  have hH2 : H % 10 = dval h2 := by omega
  have hM1 : M / 10 = dval m1 := by omega
  have hM2 : M % 10 = dval m2 := by omega
  rw [hH1, hH2, hM1, hM2]
  rw [digitChar_dval h1 d1, digitChar_dval h2 d2,
      digitChar_dval m1 d3, digitChar_dval m2 d4]
  cases s with
  | mk data => simp at hd; rw [hd]

end DailyRoutine

namespace DailyRoutine

/-! ## Arithmetic facts about the time codec -/

/-- `getTimeDelta` is congruent to the raw parse difference modulo a day. -/
theorem getTimeDelta_emod (o n : String) :
    getTimeDelta o n % 1440 = (parseTime n - parseTime o) % 1440 := by
  unfold getTimeDelta
  dsimp only
  split
  · omega
  · split <;> omega

/-- On valid times, a zero `getTimeDelta` means the parses agree. -/
theorem getTimeDelta_eq_zero (o n : String) (ho : isHHMM o = true)
    (hn : isHHMM n = true) (h : getTimeDelta o n = 0) :
    parseTime o = parseTime n := by
  obtain ⟨ho0, ho1⟩ := parseTime_isHHMM_bounds o ho
  obtain ⟨hn0, hn1⟩ := parseTime_isHHMM_bounds n hn
  unfold getTimeDelta at h
  dsimp only at h
  split at h
  · omega
  · split at h <;> omega

/-- `parseTime` after `shiftTime` is the shifted value modulo a day. -/
theorem parseTime_shiftTime (t : String) (d : Int) :
    parseTime (shiftTime t d) = (parseTime t + d) % 1440 := by
  unfold shiftTime
  exact parseTime_formatTime (parseTime t + d)

/-- The specification-side minute-of-day of a valid `"HH:MM"` string. -/
def minuteOfDay (s : String) : Int :=
  match s.data with
  | [h1, h2, _, m1, m2] =>
    ((60 * (10 * dval h1 + dval h2) + (10 * dval m1 + dval m2) : Nat) : Int)
  | _ => 0

/-! ## Claim C5 -/

/-- **C5**: for valid `"HH:MM"` strings, `getTimeDelta(oldTime, newTime)`
is `parseTime(newTime) - parseTime(oldTime)` adjusted once by `-1440` when
the raw difference exceeds `720` and by `+1440` when it is below `-720`,
and the result always lies in `[-720, 720]`; in particular
`getTimeDelta("23:00","01:00") = 120` and
`getTimeDelta("01:00","23:00") = -120`. -/
theorem claim_C5_getTimeDelta_wrap :
    (∀ o n : String, isHHMM o = true → isHHMM n = true →
      getTimeDelta o n =
        (if parseTime n - parseTime o > 720 then parseTime n - parseTime o - 1440
         else if parseTime n - parseTime o < -720 then parseTime n - parseTime o + 1440
         else parseTime n - parseTime o) ∧
      -720 ≤ getTimeDelta o n ∧ getTimeDelta o n ≤ 720) ∧
    getTimeDelta "23:00" "01:00" = 120 ∧ getTimeDelta "01:00" "23:00" = -120 := by
  refine ⟨?_, by decide, by decide⟩
  intro o n ho hn
  obtain ⟨ho0, ho1⟩ := parseTime_isHHMM_bounds o ho
  obtain ⟨hn0, hn1⟩ := parseTime_isHHMM_bounds n hn
  refine ⟨rfl, ?_⟩
  unfold getTimeDelta
  dsimp only
  split
  · omega
  · split <;> omega

/-- Witness for C5 at concrete valid inputs. -/
theorem claim_C5_getTimeDelta_wrap_witness :
    getTimeDelta "07:00" "08:00" =
      (if parseTime "08:00" - parseTime "07:00" > 720
       then parseTime "08:00" - parseTime "07:00" - 1440
       else if parseTime "08:00" - parseTime "07:00" < -720
       then parseTime "08:00" - parseTime "07:00" + 1440
       else parseTime "08:00" - parseTime "07:00") ∧
    -720 ≤ getTimeDelta "07:00" "08:00" ∧ getTimeDelta "07:00" "08:00" ≤ 720 :=
  claim_C5_getTimeDelta_wrap.1 "07:00" "08:00" (by decide) (by decide)

/-! ## Claim C6 -/

/-- **C6**: the time codec round-trips: `formatTime (parseTime t) = t` for
every valid `"HH:MM"` string `t`, and for every integer `m`,
`parseTime (formatTime m) = ((m % 1440) + 1440) % 1440` where `%` is
JavaScript's truncating remainder (`jsRem`). -/
theorem claim_C6_codec_roundtrip :
    (∀ t : String, isHHMM t = true → formatTime (parseTime t) = t) ∧
    (∀ m : Int, parseTime (formatTime m) = jsRem (jsRem m 1440 + 1440) 1440) := by
  constructor
  · exact formatTime_parseTime_of_isHHMM
  · intro m
    rw [parseTime_formatTime]
    have hb := jsRem_1440_bounds m
    have hc : jsRem m 1440 % 1440 = m % 1440 := jsRem_1440_modeq m
    generalize hrw : jsRem m 1440 = r at *
    unfold jsRem
    rw [if_pos (by omega : (0 : Int) ≤ r + 1440)]
    omega

/-- Witness for C6 at a concrete valid string and a concrete integer. -/
theorem claim_C6_codec_roundtrip_witness :
    formatTime (parseTime "07:30") = "07:30" ∧
    parseTime (formatTime (-90)) = jsRem (jsRem (-90) 1440 + 1440) 1440 :=
  ⟨claim_C6_codec_roundtrip.1 "07:30" (by decide),
   claim_C6_codec_roundtrip.2 (-90)⟩

/-! ## Claim C7 (corrected) -/

/-- **C7 counterexample**: the claim "parseTime maps every malformed input
to 0" is false: `"25:00"` is not a valid `"HH:MM"` string, yet
`parseTime "25:00" = 1500 ≠ 0` (out-of-range numeric components are not
rejected). -/
theorem claim_C7_counterexample :
    ¬ (∀ s : String, isHHMM s = false → parseTime s = 0) := by
  intro h
  have h25 := h "25:00" (by decide)
  have : parseTime "25:00" = 1500 := by decide
  omega

/-- **C7 (amended)**: `parseTime` maps every valid `"HH:MM"` string to its
minute-of-day, which lies in `[0, 1440)`; it maps the empty string and
every string whose first two colon-separated components do not both parse
as numbers to `0`; but strings with numeric out-of-range components are
not rejected (e.g. `parseTime "25:00" = 1500`). -/
theorem claim_C7_parseTime_behavior :
    (∀ t : String, isHHMM t = true →
      parseTime t = minuteOfDay t ∧ 0 ≤ parseTime t ∧ parseTime t < 1440) ∧
    parseTime "" = 0 ∧
    (∀ s : String, parseComponents s = none → parseTime s = 0) ∧
    parseTime "25:00" = 1500 := by
  refine ⟨?_, by decide, ?_, by decide⟩
  · intro t ht
    obtain ⟨h1, h2, m1, m2, hd, d1, d2, d3, d4, b1, b2⟩ := isHHMM_destruct t ht
    obtain ⟨hb0, hb1⟩ := parseTime_isHHMM_bounds t ht
    refine ⟨?_, hb0, hb1⟩
    rw [parseTime_digit_pattern t h1 h2 m1 m2 hd d1 d2 d3 d4]
    unfold minuteOfDay
    rw [hd]
  · intro s hs
    unfold parseTime
    rw [hs]
    split <;> rfl

/-- Witness for the amended C7 at concrete inputs. -/
theorem claim_C7_parseTime_behavior_witness :
    (parseTime "07:30" = minuteOfDay "07:30" ∧
     0 ≤ parseTime "07:30" ∧ parseTime "07:30" < 1440) ∧
    parseTime "ab" = 0 :=
  ⟨claim_C7_parseTime_behavior.1 "07:30" (by decide),
   claim_C7_parseTime_behavior.2.2.1 "ab" (by decide)⟩

end DailyRoutine

namespace DailyRoutine

/-! ## Claim C8 -/

/-- Specification-side restatement of the claimed `normalizeTime`
behaviour: after trimming, a bare 1–2 digit hour in `[0, 23]` becomes
`"HH:00"`, an `H:MM`/`HH:MM` with hour in `[0, 23]` and a two-digit
minute in `[0, 59]` becomes zero-padded `"HH:MM"`, and every other input
gives `none`. -/
def specNormalize (time : String) : Option String :=
  let t := trimChars time.data
  if (t.length = 1 ∨ t.length = 2) ∧ t.all Char.isDigit ∧ digitsToNat t ≤ 23 then
    some (String.mk (pad2 (digitsToNat t) ++ [':', '0', '0']))
  else
    match splitCols t with
    | [h, m] =>
      if (h.length = 1 ∨ h.length = 2) ∧ h.all Char.isDigit ∧ digitsToNat h ≤ 23 ∧
         m.length = 2 ∧ m.all Char.isDigit ∧ digitsToNat m ≤ 59 then
        some (String.mk (pad2 (digitsToNat h) ++ ':' :: pad2 (digitsToNat m)))
      else none
    | _ => none

/-- A list without `':'` is a single `split(':')` group. -/
theorem splitCols_no_colon (l : List Char) (h : ∀ c ∈ l, c ≠ ':') :
    splitCols l = [l] := by
  induction l with
  | nil => rfl
  | cons c rest ih =>
    rw [splitCols_cons_ne c rest (h c (by simp))]
    rw [ih (fun x hx => h x (by simp [hx]))]
    rfl

theorem normalizeTime_eq_spec (s : String) : normalizeTime s = specNormalize s := by
  unfold normalizeTime specNormalize
  by_cases hs : s = ""
  · subst hs
    rfl
  · rw [if_neg hs]
    dsimp only
    by_cases c1 : 1 ≤ (trimChars s.data).length ∧ (trimChars s.data).length ≤ 2 ∧
        (trimChars s.data).all Char.isDigit = true
    · rw [if_pos c1]
      have hnc : ∀ c ∈ trimChars s.data, c ≠ ':' := by
        intro c hc
        have hall := c1.2.2
        rw [List.all_eq_true] at hall
        exact isDigit_ne_colon c (hall c hc)
      by_cases c23 : digitsToNat (trimChars s.data) > 23
      · rw [if_pos c23, if_neg (by
          intro hc
          exact absurd hc.2.2 (by omega))]
        rw [splitCols_no_colon _ hnc]
      · rw [if_neg c23, if_pos ⟨by omega, c1.2.2, by omega⟩]
    · rw [if_neg c1, if_neg (by
        intro hc
        exact c1 ⟨by omega, by omega, hc.2.1⟩)]
      cases hsp : splitCols (trimChars s.data) with
      | nil => rfl
      | cons g gs =>
        cases gs with
        | nil => rfl
        | cons g2 gs2 =>
          cases gs2 with
          | nil =>
            dsimp only
            by_cases c2 : 1 ≤ g.length ∧ g.length ≤ 2 ∧ g.all Char.isDigit = true ∧
                g2.length = 2 ∧ g2.all Char.isDigit = true
            · rw [if_pos c2]
              by_cases cb : digitsToNat g > 23 ∨ digitsToNat g2 > 59
              · rw [if_pos cb, if_neg (by
                  intro hc
                  obtain ⟨_, _, hb1, _, _, hb2⟩ := hc
                  omega)]
              · rw [if_neg cb, if_pos ⟨by omega, c2.2.2.1, by omega,
                  c2.2.2.2.1, c2.2.2.2.2, by omega⟩]
            · rw [if_neg c2, if_neg (by
                intro hc
                obtain ⟨h1, h2, h3, h4, h5, h6⟩ := hc
                exact c2 ⟨by omega, by omega, h2, h4, h5⟩)]
          | cons g3 gs3 => rfl

/-- `isValidTime` accepts exactly the inputs that `normalizeTime`
normalizes: the two source functions implement the same acceptance
condition. -/
theorem isValidTime_eq_isSome (s : String) :
    isValidTime s = (normalizeTime s).isSome := by
  unfold isValidTime normalizeTime
  by_cases hs : s = ""
  · subst hs
    rfl
  · rw [if_neg hs, if_neg hs]
    dsimp only
    by_cases c1 : 1 ≤ (trimChars s.data).length ∧ (trimChars s.data).length ≤ 2 ∧
        (trimChars s.data).all Char.isDigit = true
    · rw [if_pos c1, if_pos c1]
      by_cases c23 : digitsToNat (trimChars s.data) > 23
      · rw [if_pos c23]
        simp
        omega
      · rw [if_neg c23]
        simp
        omega
    · rw [if_neg c1, if_neg c1]
      cases hsp : splitCols (trimChars s.data) with
      | nil => rfl
      | cons g gs =>
        cases gs with
        | nil => rfl
        | cons g2 gs2 =>
          cases gs2 with
          | nil =>
            dsimp only
            by_cases c2 : 1 ≤ g.length ∧ g.length ≤ 2 ∧ g.all Char.isDigit = true ∧
                g2.length = 2 ∧ g2.all Char.isDigit = true
            · rw [if_pos c2, if_pos c2]
              by_cases cb : digitsToNat g > 23 ∨ digitsToNat g2 > 59
              · rw [if_pos cb]
                simp
                omega
              · rw [if_neg cb]
                simp
                omega
            · rw [if_neg c2, if_neg c2]
              rfl
          | cons g3 gs3 => rfl

/-! The claim C8 theorem. -/

/-- **C8**: `normalizeTime` returns the zero-padded `"HH:MM"` form for
every input that, after trimming, is a bare 1–2 digit hour in `[0, 23]`
or `H:MM`/`HH:MM` with hour in `[0, 23]` and a two-digit minute in
`[0, 59]`, and `none` for every other input (both functions are total, so
no error is ever raised); `normalizeTime "7" = some "07:00"`,
`normalizeTime "7:5" = none`, `normalizeTime "24:00" = none`; and
`isValidTime` is `true` exactly when `normalizeTime` is non-`none`. -/
theorem claim_C8_normalizeTime :
    (∀ s : String, normalizeTime s = specNormalize s) ∧
    normalizeTime "7" = some "07:00" ∧
    normalizeTime "7:5" = none ∧
    normalizeTime "24:00" = none ∧
    (∀ s : String, isValidTime s = true ↔ (normalizeTime s).isSome = true) := by
  refine ⟨normalizeTime_eq_spec, by decide, by decide, by decide, ?_⟩
  intro s
  rw [isValidTime_eq_isSome s]

/-! ## Data model (`Mark`, `Schedule`) and default-mark templates
(`src/constants/defaultMarks.js`) -/

/-- A mark: `{ id, scheduleId, emoji, title, description, time }`. -/
structure Mark where
  id : String
  scheduleId : String
  emoji : String
  title : String
  description : String
  time : String
deriving DecidableEq, Repr

/-- A schedule: `{ id, name, wakeTime, bedtime }`. -/
structure Schedule where
  id : String
  name : String
  wakeTime : String
  bedtime : String
deriving DecidableEq, Repr

/-- A default-mark template:
`{ id, emoji, title, description, offsetMinutes }`. -/
structure MarkTemplate where
  id : String
  emoji : String
  title : String
  description : String
  offsetMinutes : Int
deriving DecidableEq, Repr

/-- `MORNING_MARK_TEMPLATES` (offsets relative to `wakeTime`). -/
def MORNING_MARK_TEMPLATES : List MarkTemplate :=
  [⟨"wake", "☀️", "Подъём", "", 0⟩,
   ⟨"breakfast", "🍳", "Завтрак", "", 30⟩,
   ⟨"coffee", "☕", "Последний кофе", "Кофеин выводится ~10 часов", 300⟩,
   ⟨"lunch", "🍽️",
    "Обед, Lorem ipsum dolor sit amet consectetur adipisicing elit. Quisquam, quos.",
    "Lorem ipsum dolor sit amet consectetur adipisicing elit. Quisquam, quos.", 360⟩]

/-- `EVENING_MARK_TEMPLATES` (offsets relative to `bedtime`). -/
def EVENING_MARK_TEMPLATES : List MarkTemplate :=
  [⟨"gym", "🏋️",
    "Спортзал, Lorem ipsum dolor sit amet consectetur adipisicing elit. Quisquam, quos.",
    "Поесть углеводы за 1.5ч до тренировки. Lorem ipsum dolor sit amet consectetur adipisicing elit. Quisquam, quos.",
    -240⟩,
   ⟨"dinner", "🍲", "Ужин", "Не есть за 2-3 часа до сна", -180⟩,
   ⟨"no-screens", "📵", "Без экранов", "Синий свет мешает мелатонину", -60⟩,
   ⟨"sleep", "🌙", "Сон", "Спокойной ночи!", 0⟩]

/-- `MORNING_MARKS`: ids of the morning templates. -/
def MORNING_MARKS : List String := MORNING_MARK_TEMPLATES.map (fun t => t.id)

/-- `EVENING_MARKS`: ids of the evening templates. -/
def EVENING_MARKS : List String := EVENING_MARK_TEMPLATES.map (fun t => t.id)

/-- `DEFAULT_MARK_IDS`: all default mark ids. -/
def DEFAULT_MARK_IDS : List String := MORNING_MARKS ++ EVENING_MARKS

/-- Modelled from the spec: the `SLEEP_MARK_ID` constant is imported from
`defaultMarks.js` by `CalendarBody.js` and the app layer, but its
definition is not among the captured sources.  The spec designates "the
last id of the evening group" — `"sleep"` — as the sleep anchor mark. -/
def SLEEP_MARK_ID : String := "sleep"

/-! ## A stable sort by integer key

JavaScript's `Array.prototype.sort` with comparator `(a, b) => key a - key b`
is a stable sort by `key`; it is modelled as an insertion sort that inserts
each element after all previously-placed elements of smaller-or-equal key. -/

/-- Insert `x` after every element whose key is `≤ key x`. -/
def insertByKey {α : Type} (key : α → Int) (x : α) : List α → List α
  | [] => [x]
  | y :: ys => if key x < key y then x :: y :: ys else y :: insertByKey key x ys

/-- Stable sort by integer key (model of `Array.prototype.sort` with a
`key a - key b` comparator). -/
def sortByKey {α : Type} (key : α → Int) (l : List α) : List α :=
  l.foldl (fun acc x => insertByKey key x acc) []

theorem insertByKey_perm {α : Type} (key : α → Int) (x : α) (l : List α) :
    List.Perm (insertByKey key x l) (x :: l) := by
  induction l with
  | nil => rfl
  | cons y ys ih =>
    unfold insertByKey
    split
    · rfl
    · exact (ih.cons y).trans (List.Perm.swap x y ys)

theorem sortByKey_perm {α : Type} (key : α → Int) (l : List α) :
    List.Perm (sortByKey key l) l := by
  suffices h : ∀ (l acc : List α), List.Perm
      (l.foldl (fun acc x => insertByKey key x acc) acc) (acc ++ l) by
    simpa using h l []
  intro l
  induction l with
  | nil => intro acc; simp
  | cons x xs ih =>
    intro acc
    simp only [List.foldl_cons]
    refine (ih (insertByKey key x acc)).trans ?_
    refine ((insertByKey_perm key x acc).append_right xs).trans ?_
    exact List.perm_middle.symm

theorem mem_insertByKey {α : Type} (key : α → Int) (x a : α) (l : List α) :
    a ∈ insertByKey key x l ↔ a = x ∨ a ∈ l := by
  rw [(insertByKey_perm key x l).mem_iff]
  simp

theorem insertByKey_pairwise {α : Type} (key : α → Int) (x : α) (l : List α)
    (h : l.Pairwise (fun a b => key a ≤ key b)) :
    (insertByKey key x l).Pairwise (fun a b => key a ≤ key b) := by
  induction l with
  | nil => simp [insertByKey]
  | cons y ys ih =>
    rw [List.pairwise_cons] at h
    obtain ⟨hy, hys⟩ := h
    unfold insertByKey
    split
    · rename_i hlt
      rw [List.pairwise_cons]
      constructor
      · intro b hb
        rcases List.mem_cons.mp hb with rfl | hb
        · omega
        · have := hy b hb
          omega
      · rw [List.pairwise_cons]
        exact ⟨hy, hys⟩
    · rename_i hge
      rw [List.pairwise_cons]
      constructor
      · intro b hb
        rcases (mem_insertByKey key x b ys).mp hb with rfl | hb
        · omega
        · exact hy b hb
      · exact ih hys

theorem sortByKey_pairwise {α : Type} (key : α → Int) (l : List α) :
    (sortByKey key l).Pairwise (fun a b => key a ≤ key b) := by
  suffices h : ∀ (l acc : List α), acc.Pairwise (fun a b => key a ≤ key b) →
      (l.foldl (fun acc x => insertByKey key x acc) acc).Pairwise
        (fun a b => key a ≤ key b) from h l [] (by simp)
  intro l
  induction l with
  | nil =>
    intro acc hacc
    simpa using hacc
  | cons x xs ih =>
    intro acc hacc
    simp only [List.foldl_cons]
    exact ih _ (insertByKey_pairwise key x acc hacc)

/-! ## Timeline layout engine (`src/components/CalendarBody.js`) -/

/-- `CalendarBody.timeToMinutes(time)`: `'HH:MM'` to minutes from
midnight; falsy input gives `0`.  The source has no `NaN` guard, so on a
string with non-numeric components it would return `NaN`; the model maps
that case to `0` and every theorem about the layout engine restricts mark
times to well-formed `"HH:MM"` strings, where the two agree. -/
def timeToMinutes (time : String) : Int :=
  if time = "" then 0
  else
    match parseComponents time with
    | some (h, m) => h * 60 + m
    | none => 0

/-- `DAY_CUTOFF_MINUTES = 6 * 60`. -/
def DAY_CUTOFF_MINUTES : Int := 360

/-- `MINUTES_PER_DAY = 24 * 60`. -/
def MINUTES_PER_DAY : Int := 1440

/-- The shifted sort key of the middle group: a time-of-day before the
06:00 cutoff counts as next-day (`+1440`) for ordering only. -/
def shiftedKey (m : Mark) : Int :=
  let t := timeToMinutes m.time
  if t < DAY_CUTOFF_MINUTES then t + MINUTES_PER_DAY else t

/-- `CalendarBody.sortedMarks`: morning-template marks sorted by
time-of-day, then the remaining non-sleep marks sorted by `shiftedKey`,
then the sleep mark (if present) last. -/
def cbSortedMarks (marks : List Mark) : List Mark :=
  let morning := sortByKey (fun m => timeToMinutes m.time)
    (marks.filter (fun m => decide (m.id ∈ MORNING_MARKS)))
  let sleep := marks.find? (fun m => m.id == SLEEP_MARK_ID)
  let middle := sortByKey shiftedKey
    (marks.filter (fun m => decide (m.id ∉ MORNING_MARKS ∧ m.id ≠ SLEEP_MARK_ID)))
  match sleep with
  | some s => morning ++ middle ++ [s]
  | none => morning ++ middle

/-- `CalendarBody.timeRange`: from 30 minutes before the first ordered
mark to 30 minutes after the last, clamped to the day; the full day when
there are no marks. -/
def timeRange (marks : List Mark) : Int × Int :=
  let sm := cbSortedMarks marks
  match sm.head?, sm.getLast? with
  | some f, some l =>
    (max 0 (timeToMinutes f.time - 30), min MINUTES_PER_DAY (timeToMinutes l.time + 30))
  | _, _ => (0, MINUTES_PER_DAY)

/-- `CalendarBody.rangeWraps`: the range crosses midnight. -/
def rangeWraps (marks : List Mark) : Bool :=
  decide ((timeRange marks).2 < (timeRange marks).1)

/-- `CalendarBody.totalRangeMinutes`. -/
def totalRangeMinutes (marks : List Mark) : Int :=
  if (timeRange marks).2 < (timeRange marks).1 then
    (MINUTES_PER_DAY - (timeRange marks).1) + (timeRange marks).2
  else (timeRange marks).2 - (timeRange marks).1

/-- `CalendarBody.pixelsPerHour` (60 px per hour). -/
def pixelsPerHour : ℚ := 60

/-- `CalendarBody.minutesFromRangeStart(timeMinutes)`. -/
def minutesFromRangeStart (marks : List Mark) (timeMinutes : Int) : Int :=
  if (timeRange marks).2 < (timeRange marks).1 then
    (if (timeRange marks).1 ≤ timeMinutes then timeMinutes - (timeRange marks).1
     else (MINUTES_PER_DAY - (timeRange marks).1) + timeMinutes)
  else timeMinutes - (timeRange marks).1

/-- The pixel mapping shared by mark positions and the current-time
indicator: `minutesFromStart / 60 * pixelsPerHour + 50`. -/
def markYPosition (marks : List Mark) (timeMinutes : Int) : ℚ :=
  ((minutesFromRangeStart marks timeMinutes : ℚ) / 60) * pixelsPerHour + 50

/-- `CalendarBody.getMarkYPosition(index)`: `50` for a missing index. -/
def getMarkYPosition (marks : List Mark) (index : Nat) : ℚ :=
  match (cbSortedMarks marks)[index]? with
  | none => 50
  | some mark => markYPosition marks (timeToMinutes mark.time)

/-- `CalendarBody.svgHeight`. -/
def svgHeight (marks : List Mark) : ℚ :=
  ((totalRangeMinutes marks : ℚ) / 60) * pixelsPerHour + 100

/-- `CalendarBody.currentTimeYPosition`: `null` when there are no marks
or the current time is out of range; otherwise the shared pixel mapping
applied to `now`. -/
def currentTimeYPosition (marks : List Mark) (now : Int) : Option ℚ :=
  if cbSortedMarks marks = [] then none
  else if (if (timeRange marks).2 < (timeRange marks).1 then
             ((timeRange marks).1 ≤ now ∧ now < MINUTES_PER_DAY) ∨
               (0 ≤ now ∧ now ≤ (timeRange marks).2)
           else (timeRange marks).1 ≤ now ∧ now ≤ (timeRange marks).2) then
    some (markYPosition marks now)
  else none

/-- The claim's "in range" condition: for a wrapping range (`end < start`)
`now ∈ [start, 1440) ∪ [0, end]`, otherwise `now ∈ [start, end]`. -/
def inRangeSpec (marks : List Mark) (now : Int) : Prop :=
  if (timeRange marks).2 < (timeRange marks).1 then
    ((timeRange marks).1 ≤ now ∧ now < MINUTES_PER_DAY) ∨
      (0 ≤ now ∧ now ≤ (timeRange marks).2)
  else (timeRange marks).1 ≤ now ∧ now ≤ (timeRange marks).2

theorem sortByKey_length {α : Type} (key : α → Int) (l : List α) :
    (sortByKey key l).length = l.length :=
  (sortByKey_perm key l).length_eq

/-- The ordered mark list is empty exactly when the mark set is empty. -/
theorem cbSortedMarks_eq_nil_iff (marks : List Mark) :
    cbSortedMarks marks = [] ↔ marks = [] := by
  constructor
  · intro h
    cases marks with
    | nil => rfl
    | cons m rest =>
      exfalso
      unfold cbSortedMarks at h
      dsimp only at h
      cases hf : (m :: rest).find? (fun x => x.id == SLEEP_MARK_ID) with
      | some s =>
        rw [hf] at h
        simp at h
      | none =>
        rw [hf] at h
        rw [List.append_eq_nil] at h
        obtain ⟨hm, hmid⟩ := h
        have hlm := congrArg List.length hm
        rw [sortByKey_length, List.length_nil] at hlm
        have hlmid := congrArg List.length hmid
        rw [sortByKey_length, List.length_nil] at hlmid
        rw [List.length_eq_zero, List.filter_eq_nil_iff] at hlm hlmid
        rw [List.find?_eq_none] at hf
        have h1 := hlm m (by simp)
        have h2 := hlmid m (by simp)
        have h3 := hf m (by simp)
        simp at h1 h2 h3
        exact absurd (h2 h1) h3
  · intro h
    rw [h]
    rfl

/-! ## Claim C3 -/

/-- The claim's canonical rendering order: the morning-template marks
sorted by ascending time-of-day, then every remaining non-sleep mark
sorted by the shifted key, then the sleep mark last when present. -/
def canonicalOrder (marks : List Mark) : List Mark :=
  sortByKey (fun m => timeToMinutes m.time)
      (marks.filter (fun m => decide (m.id ∈ MORNING_MARKS))) ++
    sortByKey shiftedKey
      (marks.filter (fun m => decide (m.id ∉ MORNING_MARKS ∧ m.id ≠ SLEEP_MARK_ID))) ++
    (match marks.find? (fun m => m.id == SLEEP_MARK_ID) with
     | some s => [s]
     | none => [])

/-- C3's concrete example: a sleep mark at 01:00, a wake mark at 07:00,
an evening mark at 22:00 and a user mark at 02:00. -/
def c3Sleep : Mark := ⟨"sleep", "s1", "🌙", "Сон", "Спокойной ночи!", "01:00"⟩

def c3User : Mark := ⟨"u-42", "s1", "📌", "Перекус", "", "02:00"⟩

def c3Wake : Mark := ⟨"wake", "s1", "☀️", "Подъём", "", "07:00"⟩

def c3Dinner : Mark := ⟨"dinner", "s1", "🍲", "Ужин", "", "22:00"⟩

/-- **C3**: for every mark list, `CalendarBody.sortedMarks` is exactly:
the morning-template marks sorted by ascending time-of-day, then every
remaining non-sleep mark sorted by the shifted key (`+1440` before 06:00),
then the sleep mark last when present; both sorted segments are
monotone in their keys; and on the concrete example with sleep at 01:00
and wake at 07:00, the sleep mark and the 02:00 mark land at the end of
the sequence, not the start. -/
theorem claim_C3_canonical_order :
    (∀ marks : List Mark, cbSortedMarks marks = canonicalOrder marks) ∧
    (∀ marks : List Mark,
      (sortByKey (fun m => timeToMinutes m.time)
          (marks.filter (fun m => decide (m.id ∈ MORNING_MARKS)))).Pairwise
        (fun a b => timeToMinutes a.time ≤ timeToMinutes b.time) ∧
      (sortByKey shiftedKey
          (marks.filter (fun m => decide (m.id ∉ MORNING_MARKS ∧ m.id ≠ SLEEP_MARK_ID)))).Pairwise
        (fun a b => shiftedKey a ≤ shiftedKey b)) ∧
    cbSortedMarks [c3Sleep, c3User, c3Wake, c3Dinner] =
      [c3Wake, c3Dinner, c3User, c3Sleep] := by
  refine ⟨?_, ?_, by decide⟩
  · intro marks
    unfold cbSortedMarks canonicalOrder
    dsimp only
    cases hf : marks.find? (fun m => m.id == SLEEP_MARK_ID) with
    | some s => rfl
    | none => simp
  · intro marks
    exact ⟨sortByKey_pairwise _ _, sortByKey_pairwise _ _⟩

/-! ## Claim C4 -/

/-- C4's wrap-around example: an evening mark at 23:00 and an
after-midnight mark at 04:00, producing a range that wraps midnight. -/
def c4Marks : List Mark :=
  [⟨"dinner", "s1", "🍲", "Ужин", "", "23:00"⟩,
   ⟨"u-7", "s1", "📌", "Ночной", "", "04:00"⟩]

/-- **C4**: for wall-clock minutes `now ∈ [0, 1440)`,
`currentTimeYPosition` is `none` exactly when the mark set is empty or
`now` is outside the visible range (wrapping ranges use
`[start, 1440) ∪ [0, end]`), and any emitted position is the shared
mark-position mapping applied to `now`; on the wrapping example,
times near midnight (23:55) and after midnight (01:40) are in range
while mid-day (11:40) is not. -/
theorem claim_C4_current_time_position :
    (∀ (marks : List Mark) (now : Int), 0 ≤ now → now < 1440 →
      (currentTimeYPosition marks now = none ↔
        (marks = [] ∨ ¬ inRangeSpec marks now)) ∧
      (∀ y : ℚ, currentTimeYPosition marks now = some y →
        y = markYPosition marks now)) ∧
    rangeWraps c4Marks = true ∧
    currentTimeYPosition c4Marks 1435 = some 135 ∧
    currentTimeYPosition c4Marks 100 = some 240 ∧
    currentTimeYPosition c4Marks 700 = none := by
  refine ⟨?_, by decide, ?_, ?_, ?_⟩
  case refine_2 =>
    have hm : minutesFromRangeStart c4Marks 1435 = 85 := by decide
    unfold currentTimeYPosition
    rw [if_neg (by decide), if_pos (by decide)]
    unfold markYPosition pixelsPerHour
    rw [hm]
    norm_num
  case refine_3 =>
    have hm : minutesFromRangeStart c4Marks 100 = 190 := by decide
    unfold currentTimeYPosition
    rw [if_neg (by decide), if_pos (by decide)]
    unfold markYPosition pixelsPerHour
    rw [hm]
    norm_num
  case refine_4 =>
    unfold currentTimeYPosition
    rw [if_neg (by decide), if_neg (by decide)]
  intro marks now h0 h1
  unfold currentTimeYPosition inRangeSpec
  by_cases hempty : cbSortedMarks marks = []
  · rw [if_pos hempty]
    have hm : marks = [] := (cbSortedMarks_eq_nil_iff marks).mp hempty
    constructor
    · simp [hm]
    · intro y hy
      exact absurd hy (by simp)
  · rw [if_neg hempty]
    have hm : ¬ marks = [] := fun h => hempty ((cbSortedMarks_eq_nil_iff marks).mpr h)
    by_cases hin : (if (timeRange marks).2 < (timeRange marks).1 then
        ((timeRange marks).1 ≤ now ∧ now < MINUTES_PER_DAY) ∨
          (0 ≤ now ∧ now ≤ (timeRange marks).2)
      else (timeRange marks).1 ≤ now ∧ now ≤ (timeRange marks).2)
    · rw [if_pos hin]
      constructor
      · simp [hm, hin]
      · intro y hy
        exact (Option.some_inj.mp hy).symm
    · rw [if_neg hin]
      constructor
      · simp [hm, hin]
      · intro y hy
        exact absurd hy (by simp)

/-- Witness for C4's universally quantified part at a concrete state. -/
theorem claim_C4_current_time_position_witness :
    (currentTimeYPosition c4Marks 1435 = none ↔
      (c4Marks = [] ∨ ¬ inRangeSpec c4Marks 1435)) ∧
    (∀ y : ℚ, currentTimeYPosition c4Marks 1435 = some y →
      y = markYPosition c4Marks 1435) :=
  claim_C4_current_time_position.1 c4Marks 1435 (by decide) (by decide)

/-! ## Repositories (`MarkRepository`, `ScheduleRepository`) over a pure
storage state

Persistence is modelled as explicit list state.  `save` of a record whose
id is already present replaces (the first, and with unique ids the only)
entry with that id; otherwise the record is pushed at the end.  The
`!mark.id` branch that generates a UUID is modelled by always supplying
the id (fresh ids are parameters of the operations that need them). -/

/-- `MarkRepository.save` for a mark carrying its id. -/
def saveMarkWithId : List Mark → Mark → List Mark
  | [], m => [m]
  | x :: xs, m => if x.id = m.id then m :: xs else x :: saveMarkWithId xs m

/-- `MarkRepository.saveMany` (the stored list; the call also returns its
argument, which the model keeps as the original list). -/
def saveMany (all : List Mark) (toSave : List Mark) : List Mark :=
  toSave.foldl saveMarkWithId all

/-- `MarkRepository.getByScheduleId`: the schedule's marks sorted by
time. -/
def marksGetByScheduleId (all : List Mark) (sid : String) : List Mark :=
  sortByKey (fun m => parseTime m.time)
    (all.filter (fun m => decide (m.scheduleId = sid)))

/-- `MarkRepository.isDefaultMark`. -/
def isDefaultMark (id : String) : Bool := decide (id ∈ DEFAULT_MARK_IDS)

/-- `MarkRepository.deleteByScheduleId`. -/
def marksDeleteByScheduleId (all : List Mark) (sid : String) : List Mark :=
  all.filter (fun m => decide (m.scheduleId ≠ sid))

/-- `ScheduleRepository.save` for a schedule carrying its id. -/
def scheduleSave : List Schedule → Schedule → List Schedule
  | [], s => [s]
  | x :: xs, s => if x.id = s.id then s :: xs else x :: scheduleSave xs s

/-- `ScheduleRepository.delete`. -/
def schedulesDelete (schedules : List Schedule) (id : String) : List Schedule :=
  schedules.filter (fun s => decide (s.id ≠ id))

/-- The persisted state: the `schedules` and `marks` localStorage keys. -/
structure Storage where
  schedules : List Schedule
  marks : List Mark
deriving DecidableEq, Repr

/-! ## `MarkService` -/

/-- `MarkService.getMarks`: a schedule's marks sorted by time (the
service sorts the already-sorted repository snapshot again). -/
def serviceGetMarks (all : List Mark) (sid : String) : List Mark :=
  sortByKey (fun m => parseTime m.time) (marksGetByScheduleId all sid)

/-- One default mark built from a template and a base minute value. -/
def defaultMarkFromTemplate (scheduleId : String) (base : Int)
    (t : MarkTemplate) : Mark :=
  ⟨t.id, scheduleId, t.emoji, t.title, t.description,
   formatTime (base + t.offsetMinutes)⟩

/-- `MarkService.createDefaultMarks`: builds the morning marks from
`wakeTime` and the evening marks from `bedtime`, persists them as a batch
and returns them.  The result is `(returned marks, new stored marks)`. -/
def createDefaultMarks (all : List Mark)
    (scheduleId wakeTime bedtime : String) : List Mark × List Mark :=
  let wakeMinutes := parseTime wakeTime
  let bedMinutes := parseTime bedtime
  let morningMarks :=
    MORNING_MARK_TEMPLATES.map (defaultMarkFromTemplate scheduleId wakeMinutes)
  let eveningMarks :=
    EVENING_MARK_TEMPLATES.map (defaultMarkFromTemplate scheduleId bedMinutes)
  let allMarks := morningMarks ++ eveningMarks
  (allMarks, saveMany all allMarks)

/-! ## Membership lemmas for `saveMany` -/

theorem mem_saveMarkWithId_self (l : List Mark) (m : Mark) :
    m ∈ saveMarkWithId l m := by
  induction l with
  | nil => simp [saveMarkWithId]
  | cons x xs ih =>
    unfold saveMarkWithId
    split
    · simp
    · simp [ih]

theorem mem_saveMarkWithId_of_ne (l : List Mark) (m m' : Mark)
    (h : m ∈ l) (hne : m.id ≠ m'.id) : m ∈ saveMarkWithId l m' := by
  induction l with
  | nil => simp at h
  | cons x xs ih =>
    unfold saveMarkWithId
    rcases List.mem_cons.mp h with rfl | hm
    · rw [if_neg (by simpa using hne)]
      simp
    · split
      · simp [hm]
      · simp [ih hm]

theorem mem_saveMany_preserved (toSave l : List Mark) (m : Mark)
    (h : m ∈ l) (hne : ∀ x ∈ toSave, m.id ≠ x.id) : m ∈ saveMany l toSave := by
  induction toSave generalizing l with
  | nil => simpa [saveMany] using h
  | cons x xs ih =>
    unfold saveMany at ih ⊢
    simp only [List.foldl_cons]
    exact ih (saveMarkWithId l x)
      (mem_saveMarkWithId_of_ne l m x h (hne x (by simp)))
      (fun y hy => hne y (by simp [hy]))

theorem mem_saveMany_of_mem (toSave l : List Mark) (m : Mark)
    (h : m ∈ toSave) (hnodup : (toSave.map (fun x => x.id)).Nodup) :
    m ∈ saveMany l toSave := by
  induction toSave generalizing l with
  | nil => simp at h
  | cons x xs ih =>
    unfold saveMany
    simp only [List.foldl_cons]
    rw [List.map_cons, List.nodup_cons] at hnodup
    rcases List.mem_cons.mp h with rfl | hm
    · exact mem_saveMany_preserved xs (saveMarkWithId l m) m
        (mem_saveMarkWithId_self l m)
        (fun y hy heq => hnodup.1 (heq ▸ List.mem_map_of_mem (fun z => z.id) hy))
    · exact ih (saveMarkWithId l x) hm hnodup.2

/-! ## Claim C1 -/

/-- **C1**: creating default marks with `wakeTime="07:00"`,
`bedtime="22:00"` yields exactly the 8 template marks, each copying the
template's id/emoji/title/description verbatim with
`time = formatTime(parseTime base + offsetMinutes)` — breakfast at
`"07:30"`, dinner at `"19:00"` — the id list is exactly the template id
list, and every returned mark is persisted in the stored batch. -/
theorem claim_C1_create_default_marks :
    (∀ (all : List Mark) (sid : String),
      (createDefaultMarks all sid "07:00" "22:00").1 =
        [⟨"wake", sid, "☀️", "Подъём", "", "07:00"⟩,
         ⟨"breakfast", sid, "🍳", "Завтрак", "", "07:30"⟩,
         ⟨"coffee", sid, "☕", "Последний кофе", "Кофеин выводится ~10 часов", "12:00"⟩,
         ⟨"lunch", sid,
          "🍽️",
          "Обед, Lorem ipsum dolor sit amet consectetur adipisicing elit. Quisquam, quos.",
          "Lorem ipsum dolor sit amet consectetur adipisicing elit. Quisquam, quos.",
          "13:00"⟩,
         ⟨"gym", sid,
          "🏋️",
          "Спортзал, Lorem ipsum dolor sit amet consectetur adipisicing elit. Quisquam, quos.",
          "Поесть углеводы за 1.5ч до тренировки. Lorem ipsum dolor sit amet consectetur adipisicing elit. Quisquam, quos.",
          "18:00"⟩,
         ⟨"dinner", sid, "🍲", "Ужин", "Не есть за 2-3 часа до сна", "19:00"⟩,
         ⟨"no-screens", sid, "📵", "Без экранов", "Синий свет мешает мелатонину", "21:00"⟩,
         ⟨"sleep", sid, "🌙", "Сон", "Спокойной ночи!", "22:00"⟩]) ∧
    (∀ (all : List Mark) (sid : String),
      (createDefaultMarks all sid "07:00" "22:00").1.map (fun m => m.id) =
        DEFAULT_MARK_IDS ∧
      (createDefaultMarks all sid "07:00" "22:00").1.length = 8) ∧
    (∀ (all : List Mark) (sid : String) (m : Mark),
      m ∈ (createDefaultMarks all sid "07:00" "22:00").1 →
      m ∈ (createDefaultMarks all sid "07:00" "22:00").2) := by
  refine ⟨?_, ?_, ?_⟩
  · intro all sid
    rfl
  · intro all sid
    exact ⟨rfl, rfl⟩
  · intro all sid m hm
    have hnodup : ((createDefaultMarks all sid "07:00" "22:00").1.map
        (fun x => x.id)).Nodup := by
      show (DEFAULT_MARK_IDS).Nodup
      decide
    exact mem_saveMany_of_mem _ all m hm hnodup

/-! ## `ScheduleService` -/

/-- The per-mark delta choice of `shiftDefaultMarks`: morning ids move by
the wake delta, evening ids by the bed delta, anything else by `0`. -/
def shiftDelta (wakeDelta bedDelta : Int) (id : String) : Int :=
  if id ∈ MORNING_MARKS then wakeDelta
  else if id ∈ EVENING_MARKS then bedDelta
  else 0

/-- The body of the `marks.forEach` loop of
`ScheduleService.shiftDefaultMarks`: skip user marks, shift a default
mark's time by its group delta and save it when the delta is nonzero. -/
def shiftStep (wakeDelta bedDelta : Int) (acc : List Mark) (mark : Mark) : List Mark :=
  if isDefaultMark mark.id then
    if shiftDelta wakeDelta bedDelta mark.id ≠ 0 then
      saveMarkWithId acc
        { mark with time := shiftTime mark.time (shiftDelta wakeDelta bedDelta mark.id) }
    else acc
  else acc

/-- `ScheduleService.shiftDefaultMarks`: iterates the loop body over the
snapshot of the schedule's marks, threading the stored mark list. -/
def shiftDefaultMarks (all : List Mark)
    (scheduleId oldWakeTime newWakeTime oldBedtime newBedtime : String) : List Mark :=
  let wakeDelta := getTimeDelta oldWakeTime newWakeTime
  let bedDelta := getTimeDelta oldBedtime newBedtime
  (marksGetByScheduleId all scheduleId).foldl (shiftStep wakeDelta bedDelta) all

/-- `ScheduleService.createSchedule`: pushes the new schedule (with the
freshly generated id) and creates its default marks. -/
def createSchedule (st : Storage) (freshId name wakeTime bedtime : String) :
    Schedule × Storage :=
  let sched : Schedule :=
    ⟨freshId, if name = "" then "Новое расписание" else name, wakeTime, bedtime⟩
  (sched, ⟨st.schedules ++ [sched],
           (createDefaultMarks st.marks freshId wakeTime bedtime).2⟩)

/-- The `data` argument of `ScheduleService.updateSchedule`: optional
`name` / `wakeTime` / `bedtime` fields. -/
structure ScheduleUpdate where
  name : Option String
  wakeTime : Option String
  bedtime : Option String
deriving DecidableEq, Repr

/-- `ScheduleService.updateSchedule`: merges `data` over the stored
schedule, saves it, and shifts the default marks only when `wakeTime`
and/or `bedtime` actually changed (truthy and string-unequal to the prior
value).  `none` models the thrown not-found error. -/
def updateSchedule (st : Storage) (id : String) (data : ScheduleUpdate) :
    Option (Schedule × Storage) :=
  match st.schedules.find? (fun s => s.id == id) with
  | none => none
  | some currentSchedule =>
    let oldWakeTime := currentSchedule.wakeTime
    let oldBedtime := currentSchedule.bedtime
    let updatedSchedule : Schedule :=
      ⟨currentSchedule.id, data.name.getD currentSchedule.name,
       data.wakeTime.getD currentSchedule.wakeTime,
       data.bedtime.getD currentSchedule.bedtime⟩
    let schedules := scheduleSave st.schedules updatedSchedule
    let wakeTimeChanged : Bool :=
      match data.wakeTime with
      | some w => decide (w ≠ "" ∧ w ≠ oldWakeTime)
      | none => false
    let bedtimeChanged : Bool :=
      match data.bedtime with
      | some b => decide (b ≠ "" ∧ b ≠ oldBedtime)
      | none => false
    let marks :=
      if wakeTimeChanged || bedtimeChanged then
        shiftDefaultMarks st.marks id oldWakeTime updatedSchedule.wakeTime
          oldBedtime updatedSchedule.bedtime
      else st.marks
    some (updatedSchedule, ⟨schedules, marks⟩)

/-- `ScheduleService.deleteSchedule`: removes the schedule's marks, then
the schedule. -/
def deleteSchedule (st : Storage) (id : String) : Storage :=
  ⟨schedulesDelete st.schedules id, marksDeleteByScheduleId st.marks id⟩

/-! ## The net effect of `shiftDefaultMarks` as a pointwise map -/

/-- Marks in the store have pairwise distinct ids (the repository's
`save`/`saveMany` replace an existing id rather than duplicating it). -/
def idsNodup (l : List Mark) : Prop := (l.map (fun m => m.id)).Nodup

/-- The per-mark effect of `shiftDefaultMarks`. -/
def shiftFn (sid : String) (wakeDelta bedDelta : Int) (m : Mark) : Mark :=
  if m.scheduleId = sid ∧ isDefaultMark m.id = true ∧
      shiftDelta wakeDelta bedDelta m.id ≠ 0 then
    { m with time := shiftTime m.time (shiftDelta wakeDelta bedDelta m.id) }
  else m

theorem map_eq_self_of_eq {l : List Mark} {f : Mark → Mark}
    (h : ∀ x ∈ l, f x = x) : l.map f = l := by
  rw [List.map_congr_left h]
  exact List.map_id l

theorem eq_of_mem_of_id_eq {l : List Mark} (h : idsNodup l) {a b : Mark}
    (ha : a ∈ l) (hb : b ∈ l) (hid : a.id = b.id) : a = b := by
  induction l with
  | nil => simp at ha
  | cons x xs ih =>
    unfold idsNodup at h ih
    rw [List.map_cons, List.nodup_cons] at h
    rcases List.mem_cons.mp ha with rfl | ha2
    · rcases List.mem_cons.mp hb with rfl | hb2
      · rfl
      · exact absurd (hid ▸ List.mem_map_of_mem (fun m => m.id) hb2) h.1
    · rcases List.mem_cons.mp hb with rfl | hb2
      · exact absurd (hid ▸ List.mem_map_of_mem (fun m => m.id) ha2) h.1
      · exact ih h.2 ha2 hb2

theorem saveMarkWithId_eq_map {l : List Mark} (h : idsNodup l) (m' : Mark)
    (hmem : m'.id ∈ l.map (fun m => m.id)) :
    saveMarkWithId l m' = l.map (fun x => if x.id = m'.id then m' else x) := by
  induction l with
  | nil => simp at hmem
  | cons x xs ih =>
    unfold idsNodup at h ih
    rw [List.map_cons, List.nodup_cons] at h
    unfold saveMarkWithId
    by_cases hx : x.id = m'.id
    · rw [if_pos hx]
      rw [List.map_cons, if_pos hx]
      congr 1
      have heq : ∀ y ∈ xs, (if y.id = m'.id then m' else y) = y := by
        intro y hy
        rw [if_neg]
        intro he
        exact h.1 ((hx.trans he.symm) ▸ List.mem_map_of_mem (fun m => m.id) hy)
      exact (map_eq_self_of_eq heq).symm
    · rw [if_neg hx]
      rw [List.map_cons, if_neg hx]
      congr 1
      apply ih h.2
      rcases List.mem_map.mp hmem with ⟨y, hy, hyid⟩
      rcases List.mem_cons.mp hy with rfl | hy2
      · exact absurd hyid hx
      · exact hyid ▸ List.mem_map_of_mem (fun m => m.id) hy2

theorem foldl_shiftStep_eq_map (wakeDelta bedDelta : Int) (ps : List Mark) :
    ∀ cur : List Mark, idsNodup cur → (ps.map (fun m => m.id)).Nodup →
      (∀ p ∈ ps, p ∈ cur) →
      ps.foldl (shiftStep wakeDelta bedDelta) cur =
        cur.map (fun x =>
          if x.id ∈ ps.map (fun m => m.id) ∧ isDefaultMark x.id = true ∧
              shiftDelta wakeDelta bedDelta x.id ≠ 0 then
            { x with time := shiftTime x.time (shiftDelta wakeDelta bedDelta x.id) }
          else x) := by
  induction ps with
  | nil =>
    intro cur hcur hnps hmem
    simp only [List.foldl_nil, List.map_nil]
    symm
    apply map_eq_self_of_eq
    intro x hx
    rw [if_neg]
    intro hc
    simp at hc
  | cons p ps' ih =>
    intro cur hcur hnps hmem
    simp only [List.foldl_cons]
    rw [List.map_cons, List.nodup_cons] at hnps
    have hpcur : p ∈ cur := hmem p (by simp)
    by_cases hcond : isDefaultMark p.id = true ∧ shiftDelta wakeDelta bedDelta p.id ≠ 0
    · have hstep : shiftStep wakeDelta bedDelta cur p =
          cur.map (fun x => if x.id = p.id then
            { p with time := shiftTime p.time (shiftDelta wakeDelta bedDelta p.id) }
          else x) := by
        unfold shiftStep
        rw [if_pos hcond.1, if_pos hcond.2]
        exact saveMarkWithId_eq_map hcur _ (List.mem_map_of_mem (fun m => m.id) hpcur)
      have hid_fp : ∀ x : Mark,
          ((fun x : Mark => if x.id = p.id then
            { p with time := shiftTime p.time (shiftDelta wakeDelta bedDelta p.id) }
          else x) x).id = x.id := by
        intro x
        dsimp only
        split
        · rename_i hxe
          exact hxe.symm
        · rfl
      have hmapid : List.map (fun m : Mark => m.id) (cur.map (fun x => if x.id = p.id then
          { p with time := shiftTime p.time (shiftDelta wakeDelta bedDelta p.id) }
          else x)) = List.map (fun m : Mark => m.id) cur := by
        rw [List.map_map]
        exact List.map_congr_left (fun x _ => hid_fp x)
      have hcur' : idsNodup (cur.map (fun x => if x.id = p.id then
          { p with time := shiftTime p.time (shiftDelta wakeDelta bedDelta p.id) }
          else x)) := by
        unfold idsNodup
        rw [hmapid]
        exact hcur
      have hmem' : ∀ q ∈ ps', q ∈ cur.map (fun x => if x.id = p.id then
          { p with time := shiftTime p.time (shiftDelta wakeDelta bedDelta p.id) }
          else x) := by
        intro q hq
        have hqcur : q ∈ cur := hmem q (by simp [hq])
        have hqid : q.id ≠ p.id := by
          intro he
          exact hnps.1 (he ▸ List.mem_map_of_mem (fun m => m.id) hq)
        have : (fun x : Mark => if x.id = p.id then
            { p with time := shiftTime p.time (shiftDelta wakeDelta bedDelta p.id) }
          else x) q = q := by
          dsimp only
          rw [if_neg hqid]
        exact this ▸ List.mem_map_of_mem _ hqcur
      rw [hstep, ih _ hcur' hnps.2 hmem', List.map_map]
      apply List.map_congr_left
      intro x hx
      simp only [Function.comp_apply]
      by_cases hxp : x.id = p.id
      · have hxep : x = p := eq_of_mem_of_id_eq hcur hx hpcur hxp
        subst hxep
        rw [if_pos rfl]
        rw [if_neg, if_pos]
        · constructor
          · rw [List.map_cons]
            simp
          · exact ⟨hcond.1, hcond.2⟩
        · intro hc
          exact hnps.1 hc.1
      · rw [if_neg hxp]
        by_cases hrest : x.id ∈ ps'.map (fun m => m.id) ∧ isDefaultMark x.id = true ∧
            shiftDelta wakeDelta bedDelta x.id ≠ 0
        · rw [if_pos hrest, if_pos ⟨by rw [List.map_cons]; exact List.mem_cons_of_mem _ hrest.1,
            hrest.2.1, hrest.2.2⟩]
        · rw [if_neg hrest, if_neg]
          intro hc
          rw [List.map_cons] at hc
          rcases List.mem_cons.mp hc.1 with he | hm
          · exact hxp he
          · exact hrest ⟨hm, hc.2.1, hc.2.2⟩
    · have hstep : shiftStep wakeDelta bedDelta cur p = cur := by
        unfold shiftStep
        by_cases hd : isDefaultMark p.id = true
        · rw [if_pos hd, if_neg]
          intro hne
          exact hcond ⟨hd, hne⟩
        · rw [if_neg hd]
      rw [hstep, ih cur hcur hnps.2 (fun q hq => hmem q (by simp [hq]))]
      apply List.map_congr_left
      intro x hx
      by_cases hxp : x.id = p.id
      · have hxep : x = p := eq_of_mem_of_id_eq hcur hx hpcur hxp
        subst hxep
        rw [if_neg, if_neg]
        · intro hc
          exact hcond ⟨hc.2.1, hc.2.2⟩
        · intro hc
          exact hnps.1 hc.1
      · by_cases hrest : x.id ∈ ps'.map (fun m => m.id) ∧ isDefaultMark x.id = true ∧
            shiftDelta wakeDelta bedDelta x.id ≠ 0
        · rw [if_pos hrest, if_pos ⟨by rw [List.map_cons]; exact List.mem_cons_of_mem _ hrest.1,
            hrest.2.1, hrest.2.2⟩]
        · rw [if_neg hrest, if_neg]
          intro hc
          rw [List.map_cons] at hc
          rcases List.mem_cons.mp hc.1 with he | hm
          · exact hxp he
          · exact hrest ⟨hm, hc.2.1, hc.2.2⟩

/-- With unique mark ids, `shiftDefaultMarks` is exactly the pointwise
`shiftFn` map over the stored marks: each default mark of the schedule
whose group delta is nonzero gets its time shifted, everything else is
untouched. -/
theorem shiftDefaultMarks_eq_map (all : List Mark)
    (sid ow nw ob nb : String) (h : idsNodup all) :
    shiftDefaultMarks all sid ow nw ob nb =
      all.map (shiftFn sid (getTimeDelta ow nw) (getTimeDelta ob nb)) := by
  unfold shiftDefaultMarks
  dsimp only
  have hperm : List.Perm (marksGetByScheduleId all sid)
      (all.filter (fun m => decide (m.scheduleId = sid))) :=
    sortByKey_perm _ _
  have hfilter_sub : (all.filter (fun m => decide (m.scheduleId = sid))).Sublist all :=
    List.filter_sublist all
  have hnodup_filter : ((all.filter (fun m =>
      decide (m.scheduleId = sid))).map (fun m => m.id)).Nodup :=
    List.Nodup.sublist (hfilter_sub.map (fun m => m.id)) h
  have hnodup_ps : ((marksGetByScheduleId all sid).map (fun m => m.id)).Nodup :=
    ((hperm.map (fun m => m.id)).nodup_iff).mpr hnodup_filter
  have hmem_ps : ∀ p ∈ marksGetByScheduleId all sid, p ∈ all := by
    intro p hp
    exact List.Sublist.mem (hperm.mem_iff.mp hp) hfilter_sub
  rw [foldl_shiftStep_eq_map _ _ _ all h hnodup_ps hmem_ps]
  apply List.map_congr_left
  intro x hx
  unfold shiftFn
  have hiff : x.id ∈ (marksGetByScheduleId all sid).map (fun m => m.id) ↔
      x.scheduleId = sid := by
    constructor
    · intro hm
      rcases List.mem_map.mp hm with ⟨p, hp, hpid⟩
      have hpall : p ∈ all := hmem_ps p hp
      have hpfil := hperm.mem_iff.mp hp
      have hpsid : p.scheduleId = sid := by
        have := List.of_mem_filter hpfil
        exact of_decide_eq_true this
      have : p = x := eq_of_mem_of_id_eq h hpall hx hpid
      exact this ▸ hpsid
    · intro hsid
      have hxfil : x ∈ all.filter (fun m => decide (m.scheduleId = sid)) :=
        List.mem_filter.mpr ⟨hx, decide_eq_true hsid⟩
      exact List.mem_map_of_mem (fun m => m.id) (hperm.mem_iff.mpr hxfil)
  by_cases hc : x.scheduleId = sid ∧ isDefaultMark x.id = true ∧
      shiftDelta (getTimeDelta ow nw) (getTimeDelta ob nb) x.id ≠ 0
  · rw [if_pos ⟨hiff.mpr hc.1, hc.2.1, hc.2.2⟩, if_pos hc]
  · rw [if_neg, if_neg hc]
    intro hcc
    exact hc ⟨hiff.mp hcc.1, hcc.2.1, hcc.2.2⟩

theorem getTimeDelta_self (t : String) : getTimeDelta t t = 0 := by
  unfold getTimeDelta
  simp

theorem morning_mem_default {id : String} (h : id ∈ MORNING_MARKS) :
    isDefaultMark id = true := by
  unfold isDefaultMark DEFAULT_MARK_IDS
  exact decide_eq_true (List.mem_append_left _ h)

/-- `shiftFn` with wake delta `60` and bed delta `0` shifts exactly the
schedule's morning-template marks by 60 minutes. -/
theorem shiftFn_60_0 (sid : String) (m : Mark) :
    shiftFn sid 60 0 m =
      if m.scheduleId = sid ∧ m.id ∈ MORNING_MARKS then
        { m with time := shiftTime m.time 60 }
      else m := by
  unfold shiftFn shiftDelta
  by_cases hm : m.id ∈ MORNING_MARKS
  · rw [if_pos hm]
    by_cases hs : m.scheduleId = sid
    · rw [if_pos ⟨hs, morning_mem_default hm, by norm_num⟩, if_pos ⟨hs, hm⟩]
    · rw [if_neg (fun hc => hs hc.1), if_neg (fun hc => hs hc.1)]
  · rw [if_neg hm]
    rw [if_neg, if_neg (fun hc => hm hc.2)]
    intro hc
    obtain ⟨_, _, hd⟩ := hc
    apply hd
    split
    · rfl
    · rfl

/-! ## Claim C2 -/

/-- **C2**: updating a schedule whose `wakeTime` is `"07:00"` with
`wakeTime = "08:00"` (bedtime untouched) shifts the time of every
morning-group default mark of that schedule by +60 minutes and leaves
every other stored mark — evening defaults, user marks, other schedules'
marks — unchanged; a name-only update leaves the stored marks identical. -/
theorem claim_C2_wake_time_shift :
    (∀ (st : Storage) (id : String) (data : ScheduleUpdate) (s : Schedule),
      idsNodup st.marks →
      st.schedules.find? (fun x => x.id == id) = some s →
      s.wakeTime = "07:00" →
      data.wakeTime = some "08:00" →
      data.bedtime = none →
      updateSchedule st id data =
        some (⟨s.id, data.name.getD s.name, "08:00", s.bedtime⟩,
          ⟨scheduleSave st.schedules ⟨s.id, data.name.getD s.name, "08:00", s.bedtime⟩,
           st.marks.map (fun m =>
             if m.scheduleId = id ∧ m.id ∈ MORNING_MARKS then
               { m with time := shiftTime m.time 60 }
             else m)⟩)) ∧
    (∀ (st : Storage) (id nm : String) (u : Schedule) (st2 : Storage),
      updateSchedule st id ⟨some nm, none, none⟩ = some (u, st2) →
      st2.marks = st.marks) := by
  constructor
  · intro st id data s hnodup hfind hwake hdw hdb
    unfold updateSchedule
    rw [hfind]
    dsimp only
    rw [hdw, hdb, hwake]
    dsimp only [Option.getD_some, Option.getD_none]
    have hchanged : (decide (¬"08:00" = "" ∧ ¬"08:00" = "07:00") || false) = true := by
      decide
    rw [hchanged, if_pos rfl]
    have hshift : shiftDefaultMarks st.marks id "07:00" "08:00" s.bedtime s.bedtime =
        st.marks.map (fun m =>
          if m.scheduleId = id ∧ m.id ∈ MORNING_MARKS then
            { m with time := shiftTime m.time 60 }
          else m) := by
      rw [shiftDefaultMarks_eq_map st.marks id "07:00" "08:00" s.bedtime s.bedtime hnodup]
      have h60 : getTimeDelta "07:00" "08:00" = 60 := by decide
      rw [h60, getTimeDelta_self]
      exact List.map_congr_left (fun m _ => shiftFn_60_0 id m)
    rw [hshift]
  · intro st id nm u st2 h
    unfold updateSchedule at h
    cases hfind : st.schedules.find? (fun s => s.id == id) with
    | none =>
      rw [hfind] at h
      simp at h
    | some cur =>
      rw [hfind] at h
      dsimp only at h
      rw [if_neg (by simp)] at h
      have hpair := Option.some_inj.mp h
      have hmarks := congrArg (fun x : Schedule × Storage => x.2.marks) hpair
      exact hmarks.symm

/-- C2's concrete witness state: one schedule with a morning default, an
evening default and a user mark. -/
def c2State : Storage :=
  ⟨[⟨"s1", "Day", "07:00", "22:00"⟩],
   [⟨"wake", "s1", "☀️", "Подъём", "", "07:00"⟩,
    ⟨"sleep", "s1", "🌙", "Сон", "Спокойной ночи!", "22:00"⟩,
    ⟨"u-1", "s1", "📌", "Прогулка", "", "15:00"⟩]⟩

/-- Witness for C2 at the concrete state. -/
theorem claim_C2_wake_time_shift_witness :
    updateSchedule c2State "s1" ⟨none, some "08:00", none⟩ =
      some (⟨"s1", "Day", "08:00", "22:00"⟩,
        ⟨scheduleSave c2State.schedules ⟨"s1", "Day", "08:00", "22:00"⟩,
         c2State.marks.map (fun m =>
           if m.scheduleId = "s1" ∧ m.id ∈ MORNING_MARKS then
             { m with time := shiftTime m.time 60 }
           else m)⟩) :=
  claim_C2_wake_time_shift.1 c2State "s1" ⟨none, some "08:00", none⟩
    ⟨"s1", "Day", "07:00", "22:00"⟩ (by unfold idsNodup; decide) (by decide) rfl rfl rfl

/-! ## The Alpine `appData` layer (schedule tabs and marks of the active
tab).  The settings record (persisted active-tab id) is threaded as an
input where read and is otherwise outside the model. -/

/-- The UI state of `appData`: the storage plus the loaded schedule list,
active tab index and the marks of the active schedule. -/
structure AppState where
  storage : Storage
  schedules : List Schedule
  activeScheduleIndex : Nat
  marks : List Mark
deriving Repr

/-- `appData.handleDeleteSchedule(index)`: deletes the schedule and its
marks, drops it from the tab list, and when the last tab was deleted
synthesizes the default schedule "Обычный день" 07:00–22:00 (with the
freshly generated id `freshId`); otherwise clamps the active index and
reloads the active tab's marks. -/
def handleDeleteSchedule (app : AppState) (index : Nat) (freshId : String) : AppState :=
  match app.schedules[index]? with
  | none => app
  | some scheduleToDelete =>
    let st := deleteSchedule app.storage scheduleToDelete.id
    let schedules := app.schedules.eraseIdx index
    if schedules.isEmpty then
      let created := createSchedule st freshId "Обычный день" "07:00" "22:00"
      ⟨created.2, [created.1], 0, serviceGetMarks created.2.marks created.1.id⟩
    else
      let idx := if schedules.length ≤ app.activeScheduleIndex then schedules.length - 1
                 else if index < app.activeScheduleIndex then app.activeScheduleIndex - 1
                 else app.activeScheduleIndex
      match schedules[idx]? with
      | some newActive => ⟨st, schedules, idx, serviceGetMarks st.marks newActive.id⟩
      | none => ⟨st, schedules, idx, app.marks⟩

/-- `appData.loadData()`: loads the schedules (synthesizing the default
schedule when the store is empty), restores the active tab from the
persisted `activeScheduleId` (falling back to the first tab), and loads
the active schedule's marks. -/
def loadData (st : Storage) (freshId : String)
    (activeScheduleId : Option String) : AppState :=
  let pair : List Schedule × Storage :=
    if st.schedules.isEmpty then
      let created := createSchedule st freshId "Обычный день" "07:00" "22:00"
      ([created.1], created.2)
    else (st.schedules, st)
  let idxInt : Int :=
    match activeScheduleId with
    | some aid =>
      if aid = "" then -1
      else
        match pair.1.findIdx? (fun s => s.id == aid) with
        | some i => (i : Int)
        | none => -1
    | none => -1
  let idx : Nat := if 0 ≤ idxInt then idxInt.toNat else 0
  let marks :=
    match pair.1[idx]? with
    | some sc => serviceGetMarks pair.2.marks sc.id
    | none => []
  ⟨pair.2, pair.1, idx, marks⟩

/-- The full default mark set of a fresh schedule, in display (time)
order. -/
def defaultMarksSorted (sid : String) : List Mark :=
  [⟨"wake", sid, "☀️", "Подъём", "", "07:00"⟩,
   ⟨"breakfast", sid, "🍳", "Завтрак", "", "07:30"⟩,
   ⟨"coffee", sid, "☕", "Последний кофе", "Кофеин выводится ~10 часов", "12:00"⟩,
   ⟨"lunch", sid,
    "🍽️",
    "Обед, Lorem ipsum dolor sit amet consectetur adipisicing elit. Quisquam, quos.",
    "Lorem ipsum dolor sit amet consectetur adipisicing elit. Quisquam, quos.",
    "13:00"⟩,
   ⟨"gym", sid,
    "🏋️",
    "Спортзал, Lorem ipsum dolor sit amet consectetur adipisicing elit. Quisquam, quos.",
    "Поесть углеводы за 1.5ч до тренировки. Lorem ipsum dolor sit amet consectetur adipisicing elit. Quisquam, quos.",
    "18:00"⟩,
   ⟨"dinner", sid, "🍲", "Ужин", "Не есть за 2-3 часа до сна", "19:00"⟩,
   ⟨"no-screens", sid, "📵", "Без экранов", "Синий свет мешает мелатонину", "21:00"⟩,
   ⟨"sleep", sid, "🌙", "Сон", "Спокойной ночи!", "22:00"⟩]

/-- Loading a fresh schedule's marks from a store holding exactly its
default batch yields the 8 default marks in time order. -/
theorem serviceGetMarks_fresh (freshId : String) :
    serviceGetMarks (createDefaultMarks [] freshId "07:00" "22:00").2 freshId =
      defaultMarksSorted freshId := by
  unfold serviceGetMarks marksGetByScheduleId
  have hfil : ((createDefaultMarks [] freshId "07:00" "22:00").2.filter
      (fun m => decide (m.scheduleId = freshId))) =
      (createDefaultMarks [] freshId "07:00" "22:00").2 := by
    apply List.filter_eq_self.mpr
    intro m hm
    apply decide_eq_true
    have : (createDefaultMarks [] freshId "07:00" "22:00").2 =
        (createDefaultMarks [] freshId "07:00" "22:00").1 := rfl
    rw [this] at hm
    simp only [createDefaultMarks, List.mem_append, List.mem_map] at hm
    rcases hm with ⟨t, _, rfl⟩ | ⟨t, _, rfl⟩ <;> rfl
  rw [hfil]
  rfl

/-! ## Claim C9 -/

/-- Deleting the only schedule always takes the synthesize-default
branch. -/
theorem handleDeleteSchedule_single (app : AppState) (freshId : String)
    (s : Schedule) (hsch : app.schedules = [s]) :
    handleDeleteSchedule app 0 freshId =
      ⟨(createSchedule (deleteSchedule app.storage s.id) freshId
          "Обычный день" "07:00" "22:00").2,
       [(createSchedule (deleteSchedule app.storage s.id) freshId
          "Обычный день" "07:00" "22:00").1],
       0,
       serviceGetMarks (createSchedule (deleteSchedule app.storage s.id) freshId
          "Обычный день" "07:00" "22:00").2.marks
         (createSchedule (deleteSchedule app.storage s.id) freshId
          "Обычный день" "07:00" "22:00").1.id⟩ := by
  unfold handleDeleteSchedule
  rw [hsch]
  rfl

/-- **C9**: deleting the last remaining schedule leaves exactly one
schedule, named "Обычный день" with wakeTime 07:00 and bedtime 22:00,
together with its full set of 8 default marks; and after any delete with
a valid index — and after initial load — at least one schedule exists. -/
theorem claim_C9_delete_last_schedule :
    (∀ (app : AppState) (freshId : String) (s : Schedule),
      app.schedules = [s] →
      (∀ m ∈ app.storage.marks, m.scheduleId = s.id) →
      (handleDeleteSchedule app 0 freshId).schedules =
          [⟨freshId, "Обычный день", "07:00", "22:00"⟩] ∧
        (handleDeleteSchedule app 0 freshId).marks = defaultMarksSorted freshId) ∧
    (∀ (app : AppState) (index : Nat) (freshId : String),
      index < app.schedules.length →
      (handleDeleteSchedule app index freshId).schedules ≠ []) ∧
    (∀ (st : Storage) (freshId : String) (aid : Option String),
      (loadData st freshId aid).schedules ≠ []) := by
  refine ⟨?_, ?_, ?_⟩
  · intro app freshId s hsch hmarks
    have hdel : deleteSchedule app.storage s.id =
        ⟨schedulesDelete app.storage.schedules s.id, []⟩ := by
      unfold deleteSchedule marksDeleteByScheduleId
      congr 1
      rw [List.filter_eq_nil_iff]
      intro m hm
      simp [hmarks m hm]
    rw [handleDeleteSchedule_single app freshId s hsch, hdel]
    constructor
    · rfl
    · exact serviceGetMarks_fresh freshId
  · intro app index freshId hidx
    unfold handleDeleteSchedule
    rcases hg : app.schedules[index]? with _ | ⟨sdel⟩
    · rw [List.getElem?_eq_none_iff] at hg
      omega
    · dsimp only
      by_cases hemp : (app.schedules.eraseIdx index).isEmpty
      · rw [if_pos hemp]
        simp
      · rw [if_neg hemp]
        rcases hg2 : (app.schedules.eraseIdx index)[if (app.schedules.eraseIdx index).length ≤
            app.activeScheduleIndex then (app.schedules.eraseIdx index).length - 1
          else if index < app.activeScheduleIndex then app.activeScheduleIndex - 1
          else app.activeScheduleIndex]? with _ | ⟨newActive⟩
        · dsimp only
          intro hc
          rw [hc] at hemp
          simp at hemp
        · dsimp only
          intro hc
          rw [hc] at hemp
          simp at hemp
  · intro st freshId aid
    unfold loadData
    dsimp only
    by_cases hemp : st.schedules.isEmpty
    · rw [if_pos hemp]
      dsimp only
      simp
    · rw [if_neg hemp]
      dsimp only
      intro hc
      rw [hc] at hemp
      simp at hemp

/-- C9's concrete witness state: a single schedule with its default
marks. -/
def c9App : AppState :=
  ⟨⟨[⟨"s1", "Day", "07:00", "22:00"⟩], defaultMarksSorted "s1"⟩,
   [⟨"s1", "Day", "07:00", "22:00"⟩], 0, defaultMarksSorted "s1"⟩

/-- Witness for C9 at the concrete app state. -/
theorem claim_C9_delete_last_schedule_witness :
    ((handleDeleteSchedule c9App 0 "fresh-1").schedules =
        [⟨"fresh-1", "Обычный день", "07:00", "22:00"⟩] ∧
      (handleDeleteSchedule c9App 0 "fresh-1").marks = defaultMarksSorted "fresh-1") ∧
    (handleDeleteSchedule c9App 0 "fresh-1").schedules ≠ [] ∧
    (loadData ⟨[], []⟩ "fresh-2" none).schedules ≠ [] :=
  ⟨claim_C9_delete_last_schedule.1 c9App "fresh-1" ⟨"s1", "Day", "07:00", "22:00"⟩
      rfl (by decide),
   claim_C9_delete_last_schedule.2.1 c9App 0 "fresh-1" (by decide),
   claim_C9_delete_last_schedule.2.2 ⟨[], []⟩ "fresh-2" none⟩

/-! ## Claim C10: the default-mark offset invariant under
create/update sequences -/

/-- The operations of the claim: `createSchedule` (with the generated
fresh id) and `updateSchedule`. -/
inductive Op where
  | create (freshId name wakeTime bedtime : String)
  | update (id : String) (data : ScheduleUpdate)

/-- Apply one operation to the storage (an update of a missing id throws
in the source; the storage is unchanged). -/
def applyOp (st : Storage) : Op → Storage
  | Op.create fid nm w b => (createSchedule st fid nm w b).2
  | Op.update id data =>
    match updateSchedule st id data with
    | some (_, st2) => st2
    | none => st

/-- Apply a sequence of operations. -/
def applyOps (st : Storage) (ops : List Op) : Storage := ops.foldl applyOp st

/-- An optional time field is valid when absent or a valid `"HH:MM"`. -/
def optTimeValid : Option String → Bool
  | some t => isHHMM t
  | none => true

/-- The claim's hypotheses on one operation: all supplied times are valid
`"HH:MM"` strings, and a created schedule's generated id is fresh. -/
def OpValid (st : Storage) : Op → Prop
  | Op.create fid _ w b => isHHMM w = true ∧ isHHMM b = true ∧
      fid ∉ st.schedules.map (fun s => s.id)
  | Op.update _ data =>
      optTimeValid data.wakeTime = true ∧ optTimeValid data.bedtime = true

instance (st : Storage) (op : Op) : Decidable (OpValid st op) :=
  match op with
  | Op.create _ _ _ _ => inferInstanceAs (Decidable (_ ∧ _ ∧ _))
  | Op.update _ _ => inferInstanceAs (Decidable (_ ∧ _))

/-- Validity of a whole operation sequence, each op against the state it
runs in. -/
def OpsValid : Storage → List Op → Prop
  | _, [] => True
  | st, op :: rest => OpValid st op ∧ OpsValid (applyOp st op) rest

def opsValidDec : (st : Storage) → (ops : List Op) → Decidable (OpsValid st ops)
  | _, [] => .isTrue trivial
  | st, op :: rest =>
    @instDecidableAnd _ _ (inferInstance) (opsValidDec (applyOp st op) rest)

instance (st : Storage) (ops : List Op) : Decidable (OpsValid st ops) :=
  opsValidDec st ops

/-- The anchor time of a default mark id within a schedule: `wakeTime`
for the morning group, `bedtime` otherwise. -/
def templateBase (s : Schedule) (tid : String) : String :=
  if tid ∈ MORNING_MARKS then s.wakeTime else s.bedtime

/-- The fixed offset of a default mark id. -/
def offsetOf (tid : String) : Int :=
  match (MORNING_MARK_TEMPLATES ++ EVENING_MARK_TEMPLATES).find?
      (fun t => t.id == tid) with
  | some t => t.offsetMinutes
  | none => 0

/-- Schedule ids in the store are pairwise distinct. -/
def schedIdsNodup (st : Storage) : Prop :=
  (st.schedules.map (fun s => s.id)).Nodup

/-- The storage invariant: unique schedule and mark ids, valid stored
schedule times, and every stored default mark's time congruent to its
owning schedule's anchor plus the template offset, modulo a day. -/
def MarkInvariant (st : Storage) : Prop :=
  schedIdsNodup st ∧ idsNodup st.marks ∧
  (∀ s ∈ st.schedules, isHHMM s.wakeTime = true ∧ isHHMM s.bedtime = true) ∧
  (∀ m ∈ st.marks, m.id ∈ DEFAULT_MARK_IDS →
    ∃ s ∈ st.schedules, s.id = m.scheduleId ∧
      parseTime m.time ≡ parseTime (templateBase s m.id) + offsetOf m.id [ZMOD 1440])

/-! ### Store-level helper lemmas -/

theorem mem_ids_saveMarkWithId {l : List Mark} {m : Mark} {y : String}
    (h : y ∈ (saveMarkWithId l m).map (fun x => x.id)) :
    y ∈ l.map (fun x => x.id) ∨ y = m.id := by
  induction l with
  | nil =>
    simp [saveMarkWithId] at h
    exact Or.inr h
  | cons x xs ih =>
    unfold saveMarkWithId at h
    split at h
    · rename_i hx
      rw [List.map_cons] at h
      rcases List.mem_cons.mp h with he | hm
      · exact Or.inr he
      · exact Or.inl (by simp [hm])
    · rw [List.map_cons] at h
      rcases List.mem_cons.mp h with he | hm
      · exact Or.inl (by simp [he])
      · rcases ih hm with h1 | h2
        · exact Or.inl (by simp [h1])
        · exact Or.inr h2

theorem idsNodup_saveMarkWithId {l : List Mark} (h : idsNodup l) (m : Mark) :
    idsNodup (saveMarkWithId l m) := by
  induction l with
  | nil => simp [saveMarkWithId, idsNodup]
  | cons x xs ih =>
    unfold idsNodup at h ih ⊢
    rw [List.map_cons, List.nodup_cons] at h
    unfold saveMarkWithId
    split
    · rename_i hx
      rw [List.map_cons, List.nodup_cons]
      exact ⟨hx ▸ h.1, h.2⟩
    · rename_i hx
      rw [List.map_cons, List.nodup_cons]
      refine ⟨?_, ih h.2⟩
      intro hc
      rcases mem_ids_saveMarkWithId hc with h1 | h2
      · exact h.1 h1
      · exact hx h2

theorem idsNodup_saveMany {toSave : List Mark} :
    ∀ {l : List Mark}, idsNodup l → idsNodup (saveMany l toSave) := by
  induction toSave with
  | nil =>
    intro l h
    exact h
  | cons x xs ih =>
    intro l h
    unfold saveMany at ih ⊢
    simp only [List.foldl_cons]
    exact ih (idsNodup_saveMarkWithId h x)

theorem mem_saveMarkWithId_elim {l : List Mark} (hn : idsNodup l) {m x : Mark}
    (h : m ∈ saveMarkWithId l x) : m = x ∨ (m ∈ l ∧ m.id ≠ x.id) := by
  induction l with
  | nil =>
    simp [saveMarkWithId] at h
    exact Or.inl h
  | cons y ys ih =>
    unfold idsNodup at hn ih
    rw [List.map_cons, List.nodup_cons] at hn
    unfold saveMarkWithId at h
    split at h
    · rename_i hy
      rcases List.mem_cons.mp h with rfl | hm
      · exact Or.inl rfl
      · refine Or.inr ⟨by simp [hm], ?_⟩
        intro he
        exact hn.1 ((hy ▸ he) ▸ List.mem_map_of_mem (fun z => z.id) hm)
    · rename_i hy
      rcases List.mem_cons.mp h with rfl | hm
      · exact Or.inr ⟨by simp, hy⟩
      · rcases ih hn.2 hm with h1 | h2
        · exact Or.inl h1
        · exact Or.inr ⟨by simp [h2.1], h2.2⟩

theorem mem_saveMany_elim {toSave : List Mark} :
    ∀ {l : List Mark}, idsNodup l → ∀ {m : Mark}, m ∈ saveMany l toSave →
      m ∈ toSave ∨ (m ∈ l ∧ m.id ∉ toSave.map (fun x => x.id)) := by
  induction toSave with
  | nil =>
    intro l _ m h
    exact Or.inr ⟨h, by simp⟩
  | cons x xs ih =>
    intro l hn m h
    unfold saveMany at ih h
    simp only [List.foldl_cons] at h
    rcases ih (idsNodup_saveMarkWithId hn x) h with h1 | ⟨h2, h3⟩
    · exact Or.inl (by simp [h1])
    · rcases mem_saveMarkWithId_elim hn h2 with rfl | ⟨h4, h5⟩
      · exact Or.inl (by simp)
      · refine Or.inr ⟨h4, ?_⟩
        rw [List.map_cons]
        intro hc
        rcases List.mem_cons.mp hc with he | hm
        · exact h5 he
        · exact h3 hm

theorem schedule_eq_of_mem_of_id_eq {l : List Schedule}
    (h : (l.map (fun s => s.id)).Nodup) {a b : Schedule}
    (ha : a ∈ l) (hb : b ∈ l) (hid : a.id = b.id) : a = b := by
  induction l with
  | nil => simp at ha
  | cons x xs ih =>
    rw [List.map_cons, List.nodup_cons] at h
    rcases List.mem_cons.mp ha with rfl | ha2
    · rcases List.mem_cons.mp hb with rfl | hb2
      · rfl
      · exact absurd (hid ▸ List.mem_map_of_mem (fun s => s.id) hb2) h.1
    · rcases List.mem_cons.mp hb with rfl | hb2
      · exact absurd (hid ▸ List.mem_map_of_mem (fun s => s.id) ha2) h.1
      · exact ih h.2 ha2 hb2

theorem scheduleSave_ids_of_mem {l : List Schedule} {s : Schedule}
    (h : s.id ∈ l.map (fun x => x.id)) :
    (scheduleSave l s).map (fun x => x.id) = l.map (fun x => x.id) := by
  induction l with
  | nil => simp at h
  | cons x xs ih =>
    unfold scheduleSave
    by_cases hx : x.id = s.id
    · rw [if_pos hx]
      simp [hx]
    · rw [if_neg hx]
      rw [List.map_cons, List.map_cons]
      congr 1
      apply ih
      rw [List.map_cons] at h
      rcases List.mem_cons.mp h with he | hm
      · exact absurd he.symm hx
      · exact hm

theorem mem_scheduleSave_self (l : List Schedule) (s : Schedule) :
    s ∈ scheduleSave l s := by
  induction l with
  | nil => simp [scheduleSave]
  | cons x xs ih =>
    unfold scheduleSave
    split
    · simp
    · simp [ih]

theorem mem_scheduleSave_of_ne {l : List Schedule} {s' s : Schedule}
    (h : s' ∈ l) (hne : s'.id ≠ s.id) : s' ∈ scheduleSave l s := by
  induction l with
  | nil => simp at h
  | cons x xs ih =>
    unfold scheduleSave
    rcases List.mem_cons.mp h with rfl | hm
    · rw [if_neg hne]
      simp
    · split
      · simp [hm]
      · simp [ih hm]

theorem mem_scheduleSave_elim {l : List Schedule}
    (hn : (l.map (fun x => x.id)).Nodup) {s' s : Schedule}
    (h : s' ∈ scheduleSave l s) : s' = s ∨ (s' ∈ l ∧ s'.id ≠ s.id) := by
  induction l with
  | nil =>
    simp [scheduleSave] at h
    exact Or.inl h
  | cons y ys ih =>
    rw [List.map_cons, List.nodup_cons] at hn
    unfold scheduleSave at h
    split at h
    · rename_i hy
      rcases List.mem_cons.mp h with rfl | hm
      · exact Or.inl rfl
      · refine Or.inr ⟨by simp [hm], ?_⟩
        intro he
        exact hn.1 ((hy ▸ he) ▸ List.mem_map_of_mem (fun z => z.id) hm)
    · rename_i hy
      rcases List.mem_cons.mp h with rfl | hm
      · exact Or.inr ⟨by simp, hy⟩
      · rcases ih hn.2 hm with h1 | h2
        · exact Or.inl h1
        · exact Or.inr ⟨by simp [h2.1], h2.2⟩

/-! ### Template facts -/

theorem morning_template_facts :
    ∀ t ∈ MORNING_MARK_TEMPLATES,
      offsetOf t.id = t.offsetMinutes ∧ t.id ∈ MORNING_MARKS := by
  intro t ht
  fin_cases ht <;> exact ⟨by decide, by decide⟩

theorem evening_template_facts :
    ∀ t ∈ EVENING_MARK_TEMPLATES,
      offsetOf t.id = t.offsetMinutes ∧ t.id ∉ MORNING_MARKS ∧
        t.id ∈ EVENING_MARKS := by
  intro t ht
  fin_cases ht <;> exact ⟨by decide, by decide, by decide⟩

theorem createDefaultMarks_ids (all : List Mark) (sid w b : String) :
    ((createDefaultMarks all sid w b).1).map (fun m => m.id) = DEFAULT_MARK_IDS := by
  rfl

theorem createDefaultMarks_mem (all : List Mark) (sid w b : String) (m : Mark)
    (hm : m ∈ (createDefaultMarks all sid w b).1) :
    (∃ t ∈ MORNING_MARK_TEMPLATES,
        m = defaultMarkFromTemplate sid (parseTime w) t) ∨
    (∃ t ∈ EVENING_MARK_TEMPLATES,
        m = defaultMarkFromTemplate sid (parseTime b) t) := by
  unfold createDefaultMarks at hm
  dsimp only at hm
  rw [List.mem_append] at hm
  rcases hm with h | h
  · rcases List.mem_map.mp h with ⟨t, ht, he⟩
    exact Or.inl ⟨t, ht, he.symm⟩
  · rcases List.mem_map.mp h with ⟨t, ht, he⟩
    exact Or.inr ⟨t, ht, he.symm⟩

theorem shiftFn_id (sid : String) (wd bd : Int) (m : Mark) :
    (shiftFn sid wd bd m).id = m.id := by
  unfold shiftFn
  split <;> rfl

theorem shiftFn_scheduleId (sid : String) (wd bd : Int) (m : Mark) :
    (shiftFn sid wd bd m).scheduleId = m.scheduleId := by
  unfold shiftFn
  split <;> rfl

theorem idsNodup_map_shiftFn {l : List Mark} (h : idsNodup l)
    (sid : String) (wd bd : Int) : idsNodup (l.map (shiftFn sid wd bd)) := by
  unfold idsNodup
  rw [List.map_map]
  have : List.map ((fun m : Mark => m.id) ∘ shiftFn sid wd bd) l =
      List.map (fun m : Mark => m.id) l :=
    List.map_congr_left (fun x _ => shiftFn_id sid wd bd x)
  rw [this]
  exact h

/-- Preservation of the invariant by `createSchedule`. -/
theorem invariant_create (st : Storage) (fid nm w b : String)
    (hI : MarkInvariant st)
    (hw : isHHMM w = true) (hb : isHHMM b = true)
    (hfresh : fid ∉ st.schedules.map (fun s => s.id)) :
    MarkInvariant (createSchedule st fid nm w b).2 := by
  obtain ⟨hsn, hmn, hval, hcons⟩ := hI
  unfold createSchedule
  dsimp only
  refine ⟨?_, ?_, ?_, ?_⟩
  · unfold schedIdsNodup at hsn ⊢
    dsimp only
    rw [List.map_append, List.nodup_append]
    refine ⟨hsn, by simp, ?_⟩
    intro x hx hx2
    simp at hx2
    exact hfresh (hx2 ▸ hx)
  · exact idsNodup_saveMany hmn
  · intro s hs
    dsimp only at hs
    rw [List.mem_append] at hs
    rcases hs with h | h
    · exact hval s h
    · simp at h
      subst h
      exact ⟨hw, hb⟩
  · intro m hm hdef
    dsimp only at hm
    rcases mem_saveMany_elim hmn hm with h1 | ⟨h2, h3⟩
    · rcases createDefaultMarks_mem st.marks fid w b m h1 with ⟨t, ht, rfl⟩ | ⟨t, ht, rfl⟩
      · obtain ⟨hoff, hmor⟩ := morning_template_facts t ht
        refine ⟨⟨fid, if nm = "" then "Новое расписание" else nm, w, b⟩,
          by simp, rfl, ?_⟩
        unfold defaultMarkFromTemplate templateBase
        dsimp only
        rw [if_pos hmor, hoff]
        unfold Int.ModEq
        rw [parseTime_formatTime]
        omega
      · obtain ⟨hoff, hnmor, _⟩ := evening_template_facts t ht
        refine ⟨⟨fid, if nm = "" then "Новое расписание" else nm, w, b⟩,
          by simp, rfl, ?_⟩
        unfold defaultMarkFromTemplate templateBase
        dsimp only
        rw [if_neg hnmor, hoff]
        unfold Int.ModEq
        rw [parseTime_formatTime]
        omega
    · exfalso
      apply h3
      have hids : (List.map (defaultMarkFromTemplate fid (parseTime w))
            MORNING_MARK_TEMPLATES ++
          List.map (defaultMarkFromTemplate fid (parseTime b))
            EVENING_MARK_TEMPLATES).map (fun x => x.id) = DEFAULT_MARK_IDS := rfl
      rw [hids]
      exact hdef

/-- The merged schedule written by `updateSchedule`. -/
def updSchedule (cur : Schedule) (data : ScheduleUpdate) : Schedule :=
  ⟨cur.id, data.name.getD cur.name, data.wakeTime.getD cur.wakeTime,
   data.bedtime.getD cur.bedtime⟩

/-- Whether `updateSchedule` actually shifts marks: a truthy time field
that differs (as a string) from the prior value. -/
def updChanged (cur : Schedule) (data : ScheduleUpdate) : Bool :=
  (match data.wakeTime with
   | some w => decide (w ≠ "" ∧ w ≠ cur.wakeTime)
   | none => false) ||
  (match data.bedtime with
   | some b => decide (b ≠ "" ∧ b ≠ cur.bedtime)
   | none => false)

theorem updateSchedule_some (st : Storage) (id : String) (data : ScheduleUpdate)
    (cur : Schedule) (hfind : st.schedules.find? (fun s => s.id == id) = some cur) :
    updateSchedule st id data = some (updSchedule cur data,
      ⟨scheduleSave st.schedules (updSchedule cur data),
       if updChanged cur data then
         shiftDefaultMarks st.marks id cur.wakeTime (updSchedule cur data).wakeTime
           cur.bedtime (updSchedule cur data).bedtime
       else st.marks⟩) := by
  unfold updateSchedule updSchedule updChanged
  rw [hfind]

theorem mem_evening_of_default {id : String} (hdef : id ∈ DEFAULT_MARK_IDS)
    (hnm : id ∉ MORNING_MARKS) : id ∈ EVENING_MARKS := by
  unfold DEFAULT_MARK_IDS at hdef
  rcases List.mem_append.mp hdef with h | h
  · exact absurd h hnm
  · exact h

/-- Preservation of the invariant by `updateSchedule`. -/
theorem invariant_update (st : Storage) (id : String) (data : ScheduleUpdate)
    (hI : MarkInvariant st)
    (hw : optTimeValid data.wakeTime = true)
    (hb : optTimeValid data.bedtime = true) :
    MarkInvariant (applyOp st (Op.update id data)) := by
  obtain ⟨hsn, hmn, hval, hcons⟩ := hI
  unfold applyOp
  dsimp only
  cases hfind : st.schedules.find? (fun s => s.id == id) with
  | none =>
    have hnone : updateSchedule st id data = none := by
      unfold updateSchedule
      rw [hfind]
    rw [hnone]
    exact ⟨hsn, hmn, hval, hcons⟩
  | some cur =>
    rw [updateSchedule_some st id data cur hfind]
    have hcurmem : cur ∈ st.schedules := List.mem_of_find?_eq_some hfind
    have hcurid : cur.id = id := by
      have := List.find?_some hfind
      simpa using this
    have hcvw := (hval cur hcurmem).1
    have hcvb := (hval cur hcurmem).2
    have huvw : isHHMM (updSchedule cur data).wakeTime = true := by
      show isHHMM (data.wakeTime.getD cur.wakeTime) = true
      cases hdw : data.wakeTime with
      | none => simpa using hcvw
      | some w =>
        rw [hdw] at hw
        simpa [optTimeValid] using hw
    have huvb : isHHMM (updSchedule cur data).bedtime = true := by
      show isHHMM (data.bedtime.getD cur.bedtime) = true
      cases hdb : data.bedtime with
      | none => simpa using hcvb
      | some b =>
        rw [hdb] at hb
        simpa [optTimeValid] using hb
    refine ⟨?_, ?_, ?_, ?_⟩
    · unfold schedIdsNodup at hsn ⊢
      dsimp only
      rw [scheduleSave_ids_of_mem]
      · exact hsn
      · show (updSchedule cur data).id ∈ _
        have hid : (updSchedule cur data).id = cur.id := rfl
        rw [hid]
        exact List.mem_map_of_mem (fun s => s.id) hcurmem
    · dsimp only
      by_cases hch : updChanged cur data = true
      · rw [if_pos hch]
        rw [shiftDefaultMarks_eq_map st.marks id _ _ _ _ hmn]
        exact idsNodup_map_shiftFn hmn id _ _
      · rw [if_neg hch]
        exact hmn
    · intro s' hs'
      dsimp only at hs'
      rcases mem_scheduleSave_elim hsn hs' with rfl | ⟨hm2, _⟩
      · exact ⟨huvw, huvb⟩
      · exact hval s' hm2
    · intro m' hm' hdef
      dsimp only at hm' ⊢
      by_cases hch : updChanged cur data = true
      · rw [if_pos hch] at hm'
        rw [shiftDefaultMarks_eq_map st.marks id _ _ _ _ hmn] at hm'
        rcases List.mem_map.mp hm' with ⟨m, hm, rfl⟩
        rw [shiftFn_id] at hdef
        obtain ⟨s, hs, hsid, hcong⟩ := hcons m hm hdef
        have hdm : isDefaultMark m.id = true := by
          unfold isDefaultMark
          exact decide_eq_true hdef
        by_cases hms : m.scheduleId = id
        · have hscid : s.id = cur.id := by rw [hsid, hms, hcurid]
          have hseq : s = cur := schedule_eq_of_mem_of_id_eq hsn hs hcurmem hscid
          rw [hseq] at hcong
          refine ⟨updSchedule cur data, mem_scheduleSave_self _ _, ?_, ?_⟩
          · rw [shiftFn_scheduleId]
            show cur.id = m.scheduleId
            rw [hcurid, hms]
          · rw [shiftFn_id]
            by_cases hdnz : shiftDelta (getTimeDelta cur.wakeTime (updSchedule cur data).wakeTime)
                (getTimeDelta cur.bedtime (updSchedule cur data).bedtime) m.id ≠ 0
            · unfold shiftFn
              rw [if_pos ⟨hms, hdm, hdnz⟩]
              dsimp only
              by_cases hmor : m.id ∈ MORNING_MARKS
              · have hsd : shiftDelta (getTimeDelta cur.wakeTime (updSchedule cur data).wakeTime)
                    (getTimeDelta cur.bedtime (updSchedule cur data).bedtime) m.id =
                    getTimeDelta cur.wakeTime (updSchedule cur data).wakeTime := by
                  unfold shiftDelta
                  rw [if_pos hmor]
                rw [hsd]
                unfold templateBase at hcong ⊢
                rw [if_pos hmor] at hcong ⊢
                unfold Int.ModEq at hcong ⊢
                rw [parseTime_shiftTime]
                have hgd := getTimeDelta_emod cur.wakeTime (updSchedule cur data).wakeTime
                omega
              · have hev : m.id ∈ EVENING_MARKS := mem_evening_of_default hdef hmor
                have hsd : shiftDelta (getTimeDelta cur.wakeTime (updSchedule cur data).wakeTime)
                    (getTimeDelta cur.bedtime (updSchedule cur data).bedtime) m.id =
                    getTimeDelta cur.bedtime (updSchedule cur data).bedtime := by
                  unfold shiftDelta
                  rw [if_neg hmor, if_pos hev]
                rw [hsd]
                unfold templateBase at hcong ⊢
                rw [if_neg hmor] at hcong ⊢
                unfold Int.ModEq at hcong ⊢
                rw [parseTime_shiftTime]
                have hgd := getTimeDelta_emod cur.bedtime (updSchedule cur data).bedtime
                omega
            · unfold shiftFn
              rw [if_neg (fun hc => hdnz hc.2.2)]
              by_cases hmor : m.id ∈ MORNING_MARKS
              · have hwd0 : getTimeDelta cur.wakeTime (updSchedule cur data).wakeTime = 0 := by
                  have : shiftDelta (getTimeDelta cur.wakeTime (updSchedule cur data).wakeTime)
                      (getTimeDelta cur.bedtime (updSchedule cur data).bedtime) m.id =
                      getTimeDelta cur.wakeTime (updSchedule cur data).wakeTime := by
                    unfold shiftDelta
                    rw [if_pos hmor]
                  rw [this] at hdnz
                  omega
                have hpw : parseTime cur.wakeTime = parseTime (updSchedule cur data).wakeTime :=
                  getTimeDelta_eq_zero _ _ hcvw huvw hwd0
                unfold templateBase at hcong ⊢
                rw [if_pos hmor] at hcong ⊢
                rw [← hpw]
                exact hcong
              · have hbd0 : getTimeDelta cur.bedtime (updSchedule cur data).bedtime = 0 := by
                  have hev : m.id ∈ EVENING_MARKS := mem_evening_of_default hdef hmor
                  have : shiftDelta (getTimeDelta cur.wakeTime (updSchedule cur data).wakeTime)
                      (getTimeDelta cur.bedtime (updSchedule cur data).bedtime) m.id =
                      getTimeDelta cur.bedtime (updSchedule cur data).bedtime := by
                    unfold shiftDelta
                    rw [if_neg hmor, if_pos hev]
                  rw [this] at hdnz
                  omega
                have hpb : parseTime cur.bedtime = parseTime (updSchedule cur data).bedtime :=
                  getTimeDelta_eq_zero _ _ hcvb huvb hbd0
                unfold templateBase at hcong ⊢
                rw [if_neg hmor] at hcong ⊢
                rw [← hpb]
                exact hcong
        · have hno : shiftFn id (getTimeDelta cur.wakeTime (updSchedule cur data).wakeTime)
              (getTimeDelta cur.bedtime (updSchedule cur data).bedtime) m = m := by
            unfold shiftFn
            rw [if_neg (fun hc => hms hc.1)]
          rw [hno]
          refine ⟨s, mem_scheduleSave_of_ne hs ?_, hsid, hcong⟩
          intro he
          apply hms
          rw [← hsid]
          have : (updSchedule cur data).id = cur.id := rfl
          rw [this] at he
          rw [he, hcurid]
      · rw [if_neg hch] at hm'
        obtain ⟨s, hs, hsid, hcong⟩ := hcons m' hm' hdef
        have hchf : updChanged cur data = false := by
          cases hx : updChanged cur data
          · rfl
          · exact absurd hx hch
        unfold updChanged at hchf
        rw [Bool.or_eq_false_iff] at hchf
        obtain ⟨hwf, hbf⟩ := hchf
        have hwake_eq : (updSchedule cur data).wakeTime = cur.wakeTime := by
          show data.wakeTime.getD cur.wakeTime = cur.wakeTime
          cases hdw : data.wakeTime with
          | none => rfl
          | some w =>
            rw [hdw] at hwf hw
            rw [decide_eq_false_iff_not] at hwf
            have hwne : w ≠ "" := by
              intro he
              rw [he] at hw
              exact absurd hw (by decide)
            by_cases hwe : w = cur.wakeTime
            · simpa using hwe
            · exact absurd ⟨hwne, hwe⟩ hwf
        have hbed_eq : (updSchedule cur data).bedtime = cur.bedtime := by
          show data.bedtime.getD cur.bedtime = cur.bedtime
          cases hdb : data.bedtime with
          | none => rfl
          | some b =>
            rw [hdb] at hbf hb
            rw [decide_eq_false_iff_not] at hbf
            have hbne : b ≠ "" := by
              intro he
              rw [he] at hb
              exact absurd hb (by decide)
            by_cases hbe : b = cur.bedtime
            · simpa using hbe
            · exact absurd ⟨hbne, hbe⟩ hbf
        by_cases hsc : s.id = cur.id
        · have hseq : s = cur := schedule_eq_of_mem_of_id_eq hsn hs hcurmem hsc
          rw [hseq] at hcong
          refine ⟨updSchedule cur data, mem_scheduleSave_self _ _, ?_, ?_⟩
          · show (updSchedule cur data).id = m'.scheduleId
            have h1 : (updSchedule cur data).id = cur.id := rfl
            rw [h1, ← hsc, hsid]
          · have hbase : templateBase (updSchedule cur data) m'.id =
                templateBase cur m'.id := by
              unfold templateBase
              rw [hwake_eq, hbed_eq]
            rw [hbase]
            exact hcong
        · refine ⟨s, mem_scheduleSave_of_ne hs ?_, hsid, hcong⟩
          intro he
          apply hsc
          have h1 : (updSchedule cur data).id = cur.id := rfl
          rw [h1] at he
          exact he

/-- The invariant holds after any valid operation sequence. -/
theorem invariant_applyOps :
    ∀ (ops : List Op) (st : Storage), MarkInvariant st → OpsValid st ops →
      MarkInvariant (applyOps st ops) := by
  intro ops
  induction ops with
  | nil =>
    intro st h _
    exact h
  | cons op rest ih =>
    intro st h hv
    unfold applyOps at ih ⊢
    simp only [List.foldl_cons]
    apply ih
    · obtain ⟨hv1, _⟩ := hv
      cases op with
      | create fid nm w b =>
        exact invariant_create st fid nm w b h hv1.1 hv1.2.1 hv1.2.2
      | update id data =>
        exact invariant_update st id data h hv1.1 hv1.2
    · exact hv.2

/-! ### The claim C10 theorem -/

/-- **C10**: starting from empty storage, after any sequence of
`createSchedule` and `updateSchedule` operations whose supplied times are
valid `"HH:MM"` strings (and with fresh generated ids), every stored
default mark satisfies
`parseTime mark.time ≡ parseTime baseTime + offsetMinutes (mod 1440)`,
where `baseTime` is the owning schedule's current `wakeTime` for morning
template ids and its current `bedtime` for evening template ids. -/
theorem claim_C10_default_offset_invariant :
    ∀ ops : List Op, OpsValid ⟨[], []⟩ ops →
      ∀ m ∈ (applyOps (⟨[], []⟩ : Storage) ops).marks, m.id ∈ DEFAULT_MARK_IDS →
        ∃ s ∈ (applyOps (⟨[], []⟩ : Storage) ops).schedules,
          s.id = m.scheduleId ∧
          parseTime m.time ≡
            parseTime (templateBase s m.id) + offsetOf m.id [ZMOD 1440] := by
  intro ops hv
  have hbase : MarkInvariant ⟨[], []⟩ := by
    refine ⟨?_, ?_, ?_, ?_⟩
    · simp [schedIdsNodup]
    · simp [idsNodup]
    · intro s hs
      simp at hs
    · intro m hm
      simp at hm
  exact (invariant_applyOps ops _ hbase hv).2.2.2

/-- Witness for C10: one create then one wake-time update. -/
theorem claim_C10_default_offset_invariant_witness :
    ∃ s ∈ (applyOps (⟨[], []⟩ : Storage)
        [Op.create "sid1" "Будни" "07:00" "22:00",
         Op.update "sid1" ⟨none, some "08:00", none⟩]).schedules,
      s.id = "sid1" ∧
      parseTime "08:30" ≡
        parseTime (templateBase s "breakfast") + offsetOf "breakfast" [ZMOD 1440] :=
  claim_C10_default_offset_invariant
    [Op.create "sid1" "Будни" "07:00" "22:00",
     Op.update "sid1" ⟨none, some "08:00", none⟩]
    (by decide)
    ⟨"breakfast", "sid1", "🍳", "Завтрак", "", "08:30"⟩
    (by decide) (by decide)

end DailyRoutine
